import Mathlib

/-!
# ContinuationHelper (hotspot/share/runtime/continuationHelper.inline.hpp)

A shallow embedding of the frame accessors and of the monitor scanners of
`continuationHelper.inline.hpp`, and the properties proved about them.

Conventions of the embedding:

* an `oop` is a natural number, `nullptr` is `0`;
* an `intptr_t*` is an integer counting stack words, so `p + n` is the C++ pointer sum;
* a C++ `int` is an `Int`;
* a function that can hit a failed `assert`, dereference a null pointer or spin in a loop
  for ever returns an `Option`: `none` stands for "the call does not return normally";
* every scanner is compiled under `ASSERT` only, so its assertions are part of the embedding;
* types and functions the file uses but does not define (`frame`, `CodeBlob`, `markWord`,
  the CPU header, ...) are structures of the values the code reads from them.
-/

namespace Loom

/-! ## Data model -/

/-- An object reference. -/
abbrev oop := Nat

/-- The null reference. -/
def nullptr : oop := 0

/-- A code address (the content of a return-address slot). -/
abbrev address := Nat

/-- A stack slot address, `intptr_t*`, in words. -/
abbrev intptr := Int

/-- Modelled from the spec: the owner field of an `ObjectMonitor` (objectMonitor.hpp is not
among the sources): no owner, the anonymous-owner marker ("held without naming a specific
owning thread"), or a concrete thread. -/
inductive MonitorOwner where
  | unowned : MonitorOwner
  | anonymous : MonitorOwner
  | thread (tid : Nat) : MonitorOwner
deriving DecidableEq, Repr

/-- An inflated monitor: the object it belongs to and its recorded owner. -/
structure ObjectMonitor where
  object : oop
  owner : MonitorOwner
deriving DecidableEq, Repr

/-- The header word of an object: `has_monitor()` and, when set, `monitor()`. -/
structure markWord where
  has_monitor : Bool
  monitor : ObjectMonitor
deriving DecidableEq, Repr

/-- The Thread Synchronization Snapshot and the other thread state the scanners read. -/
structure JavaThread where
  tid : Nat
  is_on_monitorenter : Bool
  _Stalled : ObjectMonitor
  last_Java_sp : intptr
deriving DecidableEq, Repr

/-- Modelled from the spec: `ObjectMonitor::is_owner_anonymous()`, the recorded owner is the
anonymous marker. -/
def ObjectMonitor.is_owner_anonymous (m : ObjectMonitor) : Bool :=
  m.owner == MonitorOwner.anonymous

/-- Modelled from the spec: `ObjectMonitor::is_owner(thread)`, the recorded owner is the
concrete thread `thread`. -/
def ObjectMonitor.is_owner (m : ObjectMonitor) (thread : JavaThread) : Bool :=
  m.owner == MonitorOwner.thread thread.tid

/-- A `Method*`: the two attributes read here. -/
structure Method where
  is_synchronized : Bool
  size_of_parameters : Int
deriving DecidableEq, Repr

/-- An abstract compiler value describing where a monitor owner lives. -/
abbrev ScopeValue := Nat

/-- A `MonitorValue` of a compiled scope. -/
structure MonitorValue where
  owner : ScopeValue
  eliminated : Bool
deriving DecidableEq, Repr

/-- A `ScopeDesc`: `monitors()` is a null pointer (`none`) or an array. The `sender()` chain
is the tail of the list the scope occurs in. -/
structure ScopeDesc where
  monitors : Option (List MonitorValue)
deriving DecidableEq, Repr

/-- A `CompiledMethod*`. `scope_desc_at pc` is the chain `scope, scope->sender(), ...` up to
the null pointer, innermost scope first. -/
structure CompiledMethod where
  method : Method
  is_compiled : Bool
  is_native_method : Bool
  has_monitors : Bool
  scope_desc_at : address → List ScopeDesc
  is_deopt_pc : address → Bool

/-- A `CodeBlob*`. `as_compiled_method` is `none` when the blob is not a compiled method
(the cast asserts). -/
structure CodeBlob where
  frame_size : Int
  is_runtime_stub : Bool
  as_compiled_method : Option CompiledMethod

/-- The `InterpreterOopMap` of an interpreted frame. -/
structure InterpreterOopMap where
  expression_stack_size : Int
deriving DecidableEq, Repr

/-- A `frame`: the values its accessors return. `cb` is `none` for a null code blob. -/
structure frame where
  is_interpreted_frame : Bool
  is_compiled_frame : Bool
  is_native_frame : Bool
  is_heap_frame : Bool
  sp : intptr
  unextended_sp : intptr
  pc : address
  cb : Option CodeBlob
  interpreter_frame_method : Method
  interpreter_frame_monitor_begin : intptr
  interpreter_frame_monitor_end : intptr
  interpreter_frame_expression_stack_size : Int
  interpreted_frame_oop_map : InterpreterOopMap
  compiled_frame_stack_argsize : Int
  get_native_receiver : oop

/-- A `stackChunkOop`: the two ways it decodes an object slot of a heap frame. -/
structure stackChunk where
  has_bitmap : Bool
  load_narrow_oop : intptr → oop
  load_oop : intptr → oop

/-- The decode context of a compiled frame. -/
abbrev RegisterMapT := Nat

/-- The Fix-up Table, `ResourceHashtable<oopDesc*, bool>`: a finite map keyed by object
identity. -/
abbrev Table := Finmap (fun _ : oop => Bool)

/-- The state of the VM around a call: memory, object headers, flags and the helpers of other
files, as the values they return. -/
structure VM where
  /-- the words of the stack, one memory for code addresses and object references:
  `*(address*)sp` and `*obj_adr` both read it -/
  memory : intptr → Nat
  /-- header word of an object, `obj->mark()` -/
  mark : oop → markWord
  UseCompressedOops : Bool
  LockingMode : Nat
  dbg_is_good_oop : oop → Bool
  /-- `ObjectSynchronizer::current_thread_holds_lock(thread, Handle(thread, obj))` -/
  current_thread_holds_lock : JavaThread → oop → Bool
  /-- `StackValue::create_stack_value(&f, map, ov)->get_obj()()` -/
  create_stack_value : frame → RegisterMapT → ScopeValue → oop
  /-- `frame::interpreter_frame_monitor_size()`, in words -/
  interpreter_frame_monitor_size : Nat
  /-- `BasicObjectLock::obj_adr()` -/
  obj_adr : intptr → intptr
  /-- CPU header: `ContinuationHelper::Frame::return_pc_address(f)` -/
  Frame_return_pc_address : frame → intptr
  /-- CPU header: `ContinuationHelper::InterpretedFrame::return_pc_address(f)` -/
  InterpretedFrame_return_pc_address : frame → intptr
  /-- CPU header: `ContinuationHelper::InterpretedFrame::frame_bottom(f)` -/
  InterpretedFrame_frame_bottom : frame → intptr
  /-- CPU header: `ContinuationHelper::InterpretedFrame::frame_top(f, mask)` -/
  InterpretedFrame_frame_top_mask : frame → InterpreterOopMap → intptr

/-- The value of `LockingMode` named `LM_LIGHTWEIGHT`. -/
def LM_LIGHTWEIGHT : Nat := 2

/-- A debug assertion: the call goes on only when the condition holds. -/
def vm_assert (c : Bool) : Option Unit :=
  if c then some () else none

/-- Modelled from the spec: `ResourceHashtable::put_if_absent(key, value, &created)`;
"insertion is idempotent (second insertion of the same object is a no-op and does not
increment the required count)". Returns the table and `created`. -/
def Table.put_if_absent (table : Table) (key : oop) (value : Bool) : Table × Bool :=
  if key ∈ table then (table, false) else (table.insert key value, true)

/-- The number of entries of a table. -/
def Table.number_of_entries (table : Table) : Nat :=
  table.keys.card

/-- Modelled from the spec: `pointer_delta_as_int(left, right)` of globalDefinitions.hpp, which
is not among the sources; the size of an interpreted frame is "bottom − top", in words. -/
def pointer_delta_as_int (left right : intptr) : Int :=
  left - right

/-- Modelled from the spec: `frame::previous_monitor_in_interpreter_frame(current)` of
frame.cpp, which is not among the sources; the step of the walk over "the frame's monitor slot
list": one monitor slot, `interpreter_frame_monitor_size()` words, below `current`. -/
def frame.previous_monitor_in_interpreter_frame (vm : VM) (_f : frame) (current : intptr) :
    intptr :=
  current - (vm.interpreter_frame_monitor_size : Int)

/-- The header word `obj->mark()` of an object that the code does not test for null first:
dereferencing the null reference does not return. -/
def oop_mark (vm : VM) (obj : oop) : Option markWord :=
  if obj = nullptr then none else some (vm.mark obj)

/-- The expression `thread->is_on_monitorenter() ? ((ObjectMonitor*)(thread->_Stalled))->object()
: nullptr` of the three scanners. -/
def monitorenter_oop (thread : JavaThread) : oop :=
  if thread.is_on_monitorenter then thread._Stalled.object else nullptr

namespace ContinuationHelper

/-! ## Return-address accessor -/

/-- The function `ContinuationHelper::return_address_at(sp)`: `*(address*)sp`. -/
def return_address_at (vm : VM) (sp : intptr) : address :=
  vm.memory sp

/-- The function `ContinuationHelper::patch_return_address_at(sp, pc)`: `*(address*)sp = pc`. -/
def patch_return_address_at (vm : VM) (sp : intptr) (pc : address) : VM :=
  { vm with memory := fun p => if p = sp then pc else vm.memory p }

/-! ## Frame classifier and generic frame accessors -/

namespace NonInterpretedUnknownFrame

/-- The predicate `NonInterpretedUnknownFrame::is_instance(f)`. -/
def is_instance (f : frame) : Bool :=
  !f.is_interpreted_frame

end NonInterpretedUnknownFrame

namespace Frame

/-- The predicate `Frame::is_stub(cb)`: `cb != nullptr && cb->is_runtime_stub()`. -/
def is_stub (cb : Option CodeBlob) : Bool :=
  match cb with
  | none => false
  | some b => b.is_runtime_stub

/-- The accessor `Frame::frame_method(f)`. -/
def frame_method (f : frame) : Option Method :=
  if f.is_interpreted_frame then some f.interpreter_frame_method
  else do
    let cb ← f.cb
    let cm ← cb.as_compiled_method
    pure cm.method

/-- The accessor `Frame::return_pc(f)`. -/
def return_pc (vm : VM) (f : frame) : address :=
  return_address_at vm (vm.Frame_return_pc_address f)

/-- The predicate `Frame::is_deopt_return(pc, sender)`. -/
def is_deopt_return (pc : address) (sender : frame) : Option Bool :=
  if sender.is_interpreted_frame then some false
  else do
    let cb ← sender.cb
    let cm ← cb.as_compiled_method
    pure (cm.is_deopt_pc pc)

end Frame

/-! ## Interpreted frames -/

namespace InterpretedFrame

/-- The predicate `InterpretedFrame::is_instance(f)`. -/
def is_instance (f : frame) : Bool :=
  f.is_interpreted_frame

/-- The accessor `InterpretedFrame::return_pc(f)`. -/
def return_pc (vm : VM) (f : frame) : address :=
  return_address_at vm (vm.InterpretedFrame_return_pc_address f)

/-- The accessor `InterpretedFrame::frame_top(f)`: inclusive. -/
def frame_top (f : frame) : intptr :=
  f.unextended_sp

/-- The accessor `InterpretedFrame::frame_bottom(f)` of the CPU header. -/
def frame_bottom (vm : VM) (f : frame) : intptr :=
  vm.InterpretedFrame_frame_bottom f

/-- The accessor `InterpretedFrame::size(f)`. -/
def size (vm : VM) (f : frame) : Int :=
  pointer_delta_as_int (frame_bottom vm f) (frame_top f)

/-- The accessor `InterpretedFrame::stack_argsize(f)`. -/
def stack_argsize (f : frame) : Int :=
  f.interpreter_frame_method.size_of_parameters

/-- The accessor `InterpretedFrame::expression_stack_size(f, mask)`. -/
def expression_stack_size (f : frame) (mask : InterpreterOopMap) : Option Int := do
  let size := mask.expression_stack_size
  vm_assert (decide (size ≤ f.interpreter_frame_expression_stack_size))
  pure size

/-- The owner read from the monitor slot `current` of `f` (lines 127-137): through the chunk
for a heap frame, directly otherwise; `none` when an assertion fails. -/
def load_owner (vm : VM) (f : frame) (chunk : Option stackChunk) (current : intptr) :
    Option oop := do
  let obj_adr := vm.obj_adr current
  let obj ←
    if f.is_heap_frame then
      match chunk with
      | none => none
      | some c =>
        some (if c.has_bitmap && vm.UseCompressedOops then c.load_narrow_oop obj_adr
              else c.load_oop obj_adr)
    else some (vm.memory obj_adr)
  vm_assert (obj == nullptr || vm.dbg_is_good_oop obj)
  pure obj

/-- The `for` loop of `InterpretedFrame::monitors_to_fix` (lines 125-154), entered with
`current`; `fuel` bounds the number of iterations. The state is `(monitor_count, table)`. -/
def monitors_to_fix_loop (vm : VM) (thread : JavaThread) (f : frame)
    (chunk : Option stackChunk) (monitorenter_oop : oop) (last_mon : intptr) :
    Nat → intptr → Nat × Table → Option (Nat × Table)
  | 0, current, st => if current ≥ last_mon then none else some st
  | fuel + 1, current, (monitor_count, table) =>
    if current ≥ last_mon then do
      let obj ← load_owner vm f chunk current
      let next := f.previous_monitor_in_interpreter_frame vm current
      if obj != nullptr && obj != monitorenter_oop then
        let mark := vm.mark obj
        if mark.has_monitor && !mark.monitor.is_owner_anonymous then do
          vm_assert (mark.monitor.is_owner thread)
          monitors_to_fix_loop vm thread f chunk monitorenter_oop last_mon fuel next
            (monitor_count, table)
        else do
          vm_assert (!f.is_heap_frame || vm.LockingMode == LM_LIGHTWEIGHT)
          let (table, created) := table.put_if_absent obj true
          monitors_to_fix_loop vm thread f chunk monitorenter_oop last_mon fuel next
            (if created then monitor_count + 1 else monitor_count, table)
      else
        monitors_to_fix_loop vm thread f chunk monitorenter_oop last_mon fuel next
          (monitor_count, table)
    else some (monitor_count, table)

/-- The scanner `InterpretedFrame::monitors_to_fix(thread, f, table, chunk)`: the returned
count and the table it leaves. The loop gets one unit of fuel per word between `last_mon`
and `first_mon`, which is enough whenever a monitor slot has a positive size. -/
def monitors_to_fix (vm : VM) (thread : JavaThread) (f : frame) (table : Table)
    (chunk : Option stackChunk) : Option (Nat × Table) := do
  let first_mon := f.interpreter_frame_monitor_begin
  let last_mon := f.interpreter_frame_monitor_end
  vm_assert (decide (last_mon ≤ first_mon))
  if first_mon = last_mon then
    pure (0, table)
  else
    monitors_to_fix_loop vm thread f chunk (monitorenter_oop thread) last_mon
      (first_mon - last_mon).toNat (f.previous_monitor_in_interpreter_frame vm first_mon)
      (0, table)

end InterpretedFrame

/-! ## Non-interpreted frames -/

namespace NonInterpretedFrame

/-- The accessor `NonInterpretedFrame::frame_top(f, callee_argsize, callee_interpreted)`. -/
def frame_top_callee (f : frame) (callee_argsize : Int) (callee_interpreted : Bool) : intptr :=
  f.unextended_sp + (if callee_interpreted then 0 else callee_argsize)

/-- The accessor `NonInterpretedFrame::frame_top(f)`: inclusive. -/
def frame_top (f : frame) : intptr :=
  f.unextended_sp

/-- The accessor `NonInterpretedFrame::frame_bottom(f)`: exclusive. -/
def frame_bottom (f : frame) : Option intptr := do
  let cb ← f.cb
  pure (f.unextended_sp + cb.frame_size)

/-- The accessor `NonInterpretedFrame::size(f)`. -/
def size (f : frame) : Option Int := do
  vm_assert (!f.is_interpreted_frame)
  let cb ← f.cb
  pure cb.frame_size

/-- The accessor `NonInterpretedFrame::stack_argsize(f)`. -/
def stack_argsize (f : frame) : Int :=
  f.compiled_frame_stack_argsize

end NonInterpretedFrame

namespace CompiledFrame

/-- The predicate `CompiledFrame::is_instance(f)`. -/
def is_instance (f : frame) : Bool :=
  f.is_compiled_frame

/-- The inner `for` loop of `CompiledFrame::monitors_to_fix` (lines 215-239) over one scope:
`n` is `index + 1`, so the loop runs `index = n-1, ..., 0`. -/
def monitors_to_fix_scope (vm : VM) (thread : JavaThread) (map : RegisterMapT) (f : frame)
    (monitorenter_oop : oop) (mons : List MonitorValue) :
    Nat → Nat × Table → Option (Nat × Table)
  | 0, st => some st
  | index + 1, (monitor_count, table) => do
    let mon ← mons.get? index
    if mon.eliminated then
      monitors_to_fix_scope vm thread map f monitorenter_oop mons index (monitor_count, table)
    else
      let ov := mon.owner
      let owner := vm.create_stack_value f map ov
      if owner != nullptr && owner != monitorenter_oop then
        let mark := vm.mark owner
        if mark.has_monitor && !mark.monitor.is_owner_anonymous then do
          vm_assert (mark.monitor.is_owner thread)
          monitors_to_fix_scope vm thread map f monitorenter_oop mons index
            (monitor_count, table)
        else do
          vm_assert (!f.is_heap_frame || vm.LockingMode == LM_LIGHTWEIGHT)
          let (table, created) := table.put_if_absent owner true
          monitors_to_fix_scope vm thread map f monitorenter_oop mons index
            (if created then monitor_count + 1 else monitor_count, table)
      else
        monitors_to_fix_scope vm thread map f monitorenter_oop mons index
          (monitor_count, table)

/-- The outer `for` loop of `CompiledFrame::monitors_to_fix` (lines 209-240) over the scope
chain. -/
def monitors_to_fix_scopes (vm : VM) (thread : JavaThread) (map : RegisterMapT) (f : frame)
    (monitorenter_oop : oop) : List ScopeDesc → Nat × Table → Option (Nat × Table)
  | [], st => some st
  | scope :: sender, st =>
    match scope.monitors with
    | none => monitors_to_fix_scopes vm thread map f monitorenter_oop sender st
    | some mons =>
      if mons.isEmpty then monitors_to_fix_scopes vm thread map f monitorenter_oop sender st
      else do
        let st ← monitors_to_fix_scope vm thread map f monitorenter_oop mons mons.length st
        monitors_to_fix_scopes vm thread map f monitorenter_oop sender st

/-- The scanner `CompiledFrame::monitors_to_fix(thread, map, f, table)`: the returned count
and the table it leaves. -/
def monitors_to_fix (vm : VM) (thread : JavaThread) (map : RegisterMapT) (f : frame)
    (table : Table) : Option (Nat × Table) := do
  vm_assert (!f.is_interpreted_frame)
  vm_assert (is_instance f)
  let cb ← f.cb
  let cm ← cb.as_compiled_method
  vm_assert (!cm.is_compiled || !cm.is_native_method)
  if !cm.has_monitors then
    pure (0, table)
  else
    monitors_to_fix_scopes vm thread map f (monitorenter_oop thread) (cm.scope_desc_at f.pc)
      (0, table)

end CompiledFrame

/-! ## Native frames -/

namespace NativeFrame

/-- The predicate `NativeFrame::is_instance(f)`. -/
def is_instance (f : frame) : Bool :=
  f.is_native_frame

/-- The scanner `NativeFrame::monitors_to_fix(thread, f, table)`: the returned count and the
table it leaves. -/
def monitors_to_fix (vm : VM) (thread : JavaThread) (f : frame) (table : Table) :
    Option (Nat × Table) := do
  vm_assert (is_instance f)
  let cb ← f.cb
  let cm ← cb.as_compiled_method
  let method := cm.method
  if !method.is_synchronized then
    pure (0, table)
  else
    let synced_obj := f.get_native_receiver
    let monitorenter_oop := monitorenter_oop thread
    let is_first_frame := decide (f.sp = thread.last_Java_sp)
    if !is_first_frame then do
      vm_assert (vm.current_thread_holds_lock thread synced_obj)
      vm_assert (monitorenter_oop == nullptr || monitorenter_oop != synced_obj)
      let mark ← oop_mark vm synced_obj
      if mark.has_monitor && !mark.monitor.is_owner_anonymous then do
        vm_assert (mark.monitor.is_owner thread)
        pure (0, table)
      else do
        vm_assert (!f.is_heap_frame)
        let (table, created) := table.put_if_absent synced_obj true
        if created then pure (1, table) else pure (0, table)
    else do
      vm_assert (thread.is_on_monitorenter && monitorenter_oop != nullptr
        && monitorenter_oop == synced_obj)
      vm_assert (!vm.current_thread_holds_lock thread synced_obj)
      pure (0, table)

end NativeFrame

/-! ## Stub frames -/

namespace StubFrame

/-- The predicate `StubFrame::is_instance(f)`. -/
def is_instance (f : frame) : Bool :=
  !f.is_interpreted_frame && Frame.is_stub f.cb

end StubFrame

/-! ## Generic frame top (debug builds) -/

namespace Frame

/-- The accessor `Frame::frame_top(f)`; `CompiledFrame::frame_top` is the one inherited from
`NonInterpretedFrame`. -/
def frame_top (vm : VM) (f : frame) : intptr :=
  if f.is_interpreted_frame then
    vm.InterpretedFrame_frame_top_mask f f.interpreted_frame_oop_map
  else NonInterpretedFrame.frame_top f

end Frame

/-! ## Vocabulary of the specification

The definitions below are not code of the file: they name the notions the properties are
stated with. -/

/-- An owner requires a fix-up entry: it is not null, it is not the object the thread is
acquiring, and its header is not "has a monitor with a non-anonymous owner". -/
def needs_fixup (vm : VM) (monitorenter_oop : oop) (o : oop) : Bool :=
  o != nullptr && o != monitorenter_oop &&
    !((vm.mark o).has_monitor && !(vm.mark o).monitor.is_owner_anonymous)

/-- The assertions the interpreted and compiled scanners make about one owner hold: an
inflated, non-anonymously owned lock is owned by `thread`, and an owner to be fixed is met on
a heap frame only under `LM_LIGHTWEIGHT`. -/
def owner_asserts (vm : VM) (thread : JavaThread) (is_heap_frame : Bool)
    (monitorenter_oop : oop) (o : oop) : Bool :=
  if o != nullptr && o != monitorenter_oop then
    if (vm.mark o).has_monitor && !(vm.mark o).monitor.is_owner_anonymous then
      (vm.mark o).monitor.is_owner thread
    else !is_heap_frame || vm.LockingMode == LM_LIGHTWEIGHT
  else true

/-- Records `o` in the table and counts it when it was created. -/
def record (st : Nat × Table) (o : oop) : Nat × Table :=
  (if (st.2.put_if_absent o true).2 then st.1 + 1 else st.1, (st.2.put_if_absent o true).1)

/-- What the body of a scanner loop does with one owner. -/
def fix_owner (vm : VM) (thread : JavaThread) (is_heap_frame : Bool) (monitorenter_oop : oop)
    (st : Nat × Table) (o : oop) : Option (Nat × Table) :=
  if owner_asserts vm thread is_heap_frame monitorenter_oop o then
    some (if needs_fixup vm monitorenter_oop o then record st o else st)
  else none

/-- A scan over the owners read from a list of monitor entries; an entry that could not be
read is `none`. -/
def scan_views (vm : VM) (thread : JavaThread) (is_heap_frame : Bool) (monitorenter_oop : oop) :
    List (Option oop) → Nat × Table → Option (Nat × Table)
  | [], st => some st
  | none :: _, _ => none
  | some o :: vs, st =>
    (fix_owner vm thread is_heap_frame monitorenter_oop st o).bind
      (scan_views vm thread is_heap_frame monitorenter_oop vs)

/-- The effect of a scan that meets no failing assertion: every owner that requires a fix-up
is recorded. -/
def scan_pure (vm : VM) (monitorenter_oop : oop) : List (Option oop) → Nat × Table → Nat × Table
  | [], st => st
  | none :: vs, st => scan_pure vm monitorenter_oop vs st
  | some o :: vs, st =>
    scan_pure vm monitorenter_oop vs (if needs_fixup vm monitorenter_oop o then record st o else st)

/-- Every entry of the list was read and passes the owner assertions. -/
def views_ok (vm : VM) (thread : JavaThread) (is_heap_frame : Bool) (monitorenter_oop : oop)
    (vs : List (Option oop)) : Bool :=
  vs.all fun v =>
    match v with
    | none => false
    | some o => owner_asserts vm thread is_heap_frame monitorenter_oop o

namespace InterpretedFrame

/-- The number of monitor slots of an interpreted frame: the words between
`interpreter_frame_monitor_end` and `interpreter_frame_monitor_begin`, in slots. -/
def monitor_count (vm : VM) (f : frame) : Nat :=
  (f.interpreter_frame_monitor_begin - f.interpreter_frame_monitor_end).toNat /
    vm.interpreter_frame_monitor_size

/-- The monitor slots of an interpreted frame, from the one next to
`interpreter_frame_monitor_begin` downwards. -/
def monitor_slots (vm : VM) (f : frame) : List intptr :=
  (List.range (monitor_count vm f)).map fun (k : Nat) =>
    f.interpreter_frame_monitor_begin - ((k : Int) + 1) * (vm.interpreter_frame_monitor_size : Int)

/-- The owners read from the monitor slots of an interpreted frame, in scan order. -/
def monitor_views (vm : VM) (f : frame) (chunk : Option stackChunk) : List (Option oop) :=
  (monitor_slots vm f).map (load_owner vm f chunk)

/-- The interpreted scanner runs to its end on the frame: the monitor block is well delimited,
a slot has a positive size (so the loop ends), every slot can be read and every owner passes
the owner assertions. -/
def scan_preconditions (vm : VM) (thread : JavaThread) (f : frame) (chunk : Option stackChunk) :
    Bool :=
  decide (f.interpreter_frame_monitor_end ≤ f.interpreter_frame_monitor_begin) &&
  decide (0 < vm.interpreter_frame_monitor_size) &&
  views_ok vm thread f.is_heap_frame (monitorenter_oop thread) (monitor_views vm f chunk)

end InterpretedFrame

namespace CompiledFrame

/-- What the scan reads from one `MonitorValue`: nothing (the null reference) when it is
eliminated, its decoded owner otherwise. -/
def monitor_view (vm : VM) (map : RegisterMapT) (f : frame) (mon : MonitorValue) : Option oop :=
  some (if mon.eliminated then nullptr else vm.create_stack_value f map mon.owner)

/-- The monitors of one scope in scan order (last to first); a null array has none. -/
def scope_monitors (scope : ScopeDesc) : List MonitorValue :=
  (scope.monitors.getD []).reverse

/-- The monitors of a scope chain in scan order. -/
def chain_monitors (scopes : List ScopeDesc) : List MonitorValue :=
  (scopes.map scope_monitors).flatten

/-- The decoded owners of the non-eliminated monitors of a scope chain, in scan order. -/
def monitor_owners (vm : VM) (map : RegisterMapT) (f : frame) (scopes : List ScopeDesc) :
    List oop :=
  ((chain_monitors scopes).filter fun mon => !mon.eliminated).map fun mon =>
    vm.create_stack_value f map mon.owner

/-- The compiled scanner runs to its end on the frame `f` with compiled method `cm`: the
assertions on the frame kind hold and every owner passes the owner assertions. -/
def scan_preconditions (vm : VM) (thread : JavaThread) (map : RegisterMapT) (f : frame)
    (cm : CompiledMethod) : Bool :=
  !f.is_interpreted_frame && is_instance f && (!cm.is_compiled || !cm.is_native_method) &&
  (monitor_owners vm map f (cm.scope_desc_at f.pc)).all
    (owner_asserts vm thread f.is_heap_frame (monitorenter_oop thread))

end CompiledFrame

end ContinuationHelper

namespace ContinuationHelper

namespace InterpretedFrame

/-- The slots the `for` loop of `InterpretedFrame::monitors_to_fix` (lines 125-126) visits when
it is entered with `current`, one per iteration, the body of the loop left out; `none` when
`fuel` iterations do not end the loop. -/
def monitors_to_fix_visits (vm : VM) (f : frame) (last_mon : intptr) :
    Nat → intptr → Option (List intptr)
  | 0, current => if current ≥ last_mon then none else some []
  | fuel + 1, current =>
    if current ≥ last_mon then
      (monitors_to_fix_visits vm f last_mon fuel
        (f.previous_monitor_in_interpreter_frame vm current)).map fun visits => current :: visits
    else some []

end InterpretedFrame

namespace NativeFrame

/-- The monitor a native frame holds: the receiver of a synchronized method once the frame is
not the topmost Java frame of the thread (on the topmost one the lock is still being
acquired). -/
def monitor_views (thread : JavaThread) (f : frame) (cm : CompiledMethod) : List (Option oop) :=
  if cm.method.is_synchronized && !decide (f.sp = thread.last_Java_sp) then
    [some f.get_native_receiver]
  else []

/-- The native scanner runs to its end on the frame `f` with compiled method `cm`: every
assertion it meets holds and the receiver it dereferences is not null. -/
def scan_preconditions (vm : VM) (thread : JavaThread) (f : frame) (cm : CompiledMethod) :
    Bool :=
  is_instance f &&
  (!cm.method.is_synchronized ||
    if f.sp = thread.last_Java_sp then
      thread.is_on_monitorenter && monitorenter_oop thread != nullptr &&
        monitorenter_oop thread == f.get_native_receiver &&
        !vm.current_thread_holds_lock thread f.get_native_receiver
    else
      vm.current_thread_holds_lock thread f.get_native_receiver &&
        (monitorenter_oop thread == nullptr ||
          monitorenter_oop thread != f.get_native_receiver) &&
        f.get_native_receiver != nullptr &&
        if (vm.mark f.get_native_receiver).has_monitor &&
            !(vm.mark f.get_native_receiver).monitor.is_owner_anonymous then
          (vm.mark f.get_native_receiver).monitor.is_owner thread
        else !f.is_heap_frame)

end NativeFrame

end ContinuationHelper

/-- The frame scanned `k` times in a row by `scan`, each scan starting from the table the scan
before it left; the counts add up. -/
def rescan (scan : Table → Option (Nat × Table)) : Nat → Table → Option (Nat × Table)
  | 0, table => some (0, table)
  | k + 1, table =>
    (scan table).bind fun r => (rescan scan k r.2).map fun r2 => (r.1 + r2.1, r2.2)

/-- A scope without its eliminated monitors. -/
def ScopeDesc.delete_eliminated (scope : ScopeDesc) : ScopeDesc :=
  ⟨scope.monitors.map fun mons => mons.filter fun mon => !mon.eliminated⟩

/-- A compiled method whose scopes have lost their eliminated monitors. -/
def CompiledMethod.delete_eliminated (cm : CompiledMethod) : CompiledMethod :=
  { cm with scope_desc_at := fun pc => (cm.scope_desc_at pc).map ScopeDesc.delete_eliminated }

/-- The frame obtained by deleting every eliminated `MonitorValue` from every scope. -/
def frame.delete_eliminated (f : frame) : frame :=
  { f with cb := f.cb.map fun cb =>
      { cb with as_compiled_method := cb.as_compiled_method.map CompiledMethod.delete_eliminated } }

/-- The frame `f` with the scope chain of its compiled method replaced by `scopes`. -/
def frame.with_scopes (f : frame) (scopes : List ScopeDesc) : frame :=
  { f with cb := f.cb.map fun cb =>
      { cb with as_compiled_method := cb.as_compiled_method.map fun cm =>
          { cm with scope_desc_at := fun _ => scopes } } }

/-- Modelled from the spec: a code object that is "a compiled wrapper for a native (foreign)
method"; the class of the code object is declared in codeBlob.hpp, which is not among the
sources. -/
def CodeBlob.is_native_wrapper (cb : CodeBlob) : Bool :=
  match cb.as_compiled_method with
  | none => false
  | some cm => cm.is_native_method

/-- Modelled from the spec: `frame::is_compiled_frame()` of frame.hpp, which is not among the
sources. "Compiled: true iff the frame carries a code object that is neither a runtime stub
nor a native-method wrapper", Compiled being a refinement of "non-interpreted, has a real code
object". -/
def frame.spec_is_compiled_frame (f : frame) : Bool :=
  !f.is_interpreted_frame &&
    match f.cb with
    | none => false
    | some cb => !cb.is_runtime_stub && !cb.is_native_wrapper

/-- Modelled from the spec: `frame::is_native_frame()` of frame.hpp, which is not among the
sources. "Native: true iff the frame's code object is a compiled wrapper for a native
(foreign) method", Native being a refinement of "non-interpreted, has a real code object". -/
def frame.spec_is_native_frame (f : frame) : Bool :=
  !f.is_interpreted_frame &&
    match f.cb with
    | none => false
    | some cb => cb.is_native_wrapper

/-- Modelled from the spec: a frame of a known kind. Its `is_compiled_frame` and
`is_native_frame` answers are the ones the spec defines; its code object is "the compiled-code
or stub metadata", so one flagged as a runtime stub is not a compiled method; and a frame
without code object is an interpreted one. -/
def frame.known_kind (f : frame) : Bool :=
  (f.is_compiled_frame == f.spec_is_compiled_frame) &&
  (f.is_native_frame == f.spec_is_native_frame) &&
    match f.cb with
    | none => f.is_interpreted_frame
    | some cb => !(cb.is_runtime_stub && cb.as_compiled_method.isSome)

/-! ## Example frames -/

/-- A header word without monitor. -/
def plain_mark : markWord := ⟨false, ⟨0, MonitorOwner.unowned⟩⟩

/-- An example VM state. Objects 7 and 8 are plain, object 9 is inflated with the anonymous
owner, object 5 is inflated and owned by thread 1. A thread holds the locks of 5, 7 and 9,
except the one it is entering. The stack holds the monitor slots of four interpreted frames
(below 100, 200, 300 and 400); a slot is two words; a scope value decodes to itself. -/
def vm0 : VM where
  memory := fun p =>
    if p = 98 then 7 else if p = 96 then 8 else if p = 94 then 7
    else if p = 198 then 9 else if p = 298 then 5 else if p = 296 then 8
    else if p = 398 then 7 else if p = 396 then 7 else 0
  mark := fun o =>
    if o = 9 then ⟨true, ⟨9, MonitorOwner.anonymous⟩⟩
    else if o = 5 then ⟨true, ⟨5, MonitorOwner.thread 1⟩⟩
    else plain_mark
  UseCompressedOops := false
  LockingMode := LM_LIGHTWEIGHT
  dbg_is_good_oop := fun _ => true
  current_thread_holds_lock := fun thread o =>
    !(thread.is_on_monitorenter && thread._Stalled.object == o) && (o == 7 || o == 5 || o == 9)
  create_stack_value := fun _ _ ov => ov
  interpreter_frame_monitor_size := 2
  obj_adr := fun p => p
  Frame_return_pc_address := fun f => f.sp - 1
  InterpretedFrame_return_pc_address := fun f => f.sp + 1
  InterpretedFrame_frame_bottom := fun f => f.sp + 20
  InterpretedFrame_frame_top_mask := fun f _ => f.unextended_sp

/-- Thread 1, not entering any monitor; its topmost Java frame is at 50. -/
def thread0 : JavaThread := ⟨1, false, ⟨0, MonitorOwner.unowned⟩, 50⟩

/-- Thread 1 while it is on monitorenter for object 7. -/
def thread_entering7 : JavaThread := ⟨1, true, ⟨7, MonitorOwner.thread 2⟩, 50⟩

/-- An interpreted stack frame with the monitor block `[monitor_end, monitor_begin)`. -/
def interpreted_frame (monitor_begin monitor_end : intptr) : frame where
  is_interpreted_frame := true
  is_compiled_frame := false
  is_native_frame := false
  is_heap_frame := false
  sp := 80
  unextended_sp := 80
  pc := 0
  cb := none
  interpreter_frame_method := ⟨false, 0⟩
  interpreter_frame_monitor_begin := monitor_begin
  interpreter_frame_monitor_end := monitor_end
  interpreter_frame_expression_stack_size := 0
  interpreted_frame_oop_map := ⟨0⟩
  compiled_frame_stack_argsize := 0
  get_native_receiver := 0

/-- A compiled method with the scope chain `scopes` at every pc. -/
def compiled_method (has_monitors : Bool) (scopes : List ScopeDesc) : CompiledMethod where
  method := ⟨false, 0⟩
  is_compiled := true
  is_native_method := false
  has_monitors := has_monitors
  scope_desc_at := fun _ => scopes
  is_deopt_pc := fun _ => false

/-- A code blob of 6 words holding the compiled method `cm`. -/
def code_blob (cm : CompiledMethod) : CodeBlob := ⟨6, false, some cm⟩

/-- A compiled stack frame running the code blob `cb`. -/
def compiled_frame (cb : CodeBlob) : frame where
  is_interpreted_frame := false
  is_compiled_frame := true
  is_native_frame := false
  is_heap_frame := false
  sp := 60
  unextended_sp := 60
  pc := 0
  cb := some cb
  interpreter_frame_method := ⟨false, 0⟩
  interpreter_frame_monitor_begin := 0
  interpreter_frame_monitor_end := 0
  interpreter_frame_expression_stack_size := 0
  interpreted_frame_oop_map := ⟨0⟩
  compiled_frame_stack_argsize := 0
  get_native_receiver := 0

/-- A scope chain: monitors of objects 7 and 8, an eliminated monitor of object 6, a scope
without monitor array and a scope with an empty one. -/
def scopes_7_8_elim6 : List ScopeDesc :=
  [⟨some [⟨7, false⟩, ⟨6, true⟩]⟩, ⟨none⟩, ⟨some []⟩, ⟨some [⟨8, false⟩]⟩]

/-- A native stack frame at `sp` running a native method wrapper with receiver `receiver`. -/
def native_frame (is_synchronized : Bool) (receiver : oop) (sp : intptr) : frame where
  is_interpreted_frame := false
  is_compiled_frame := false
  is_native_frame := true
  is_heap_frame := false
  sp := sp
  unextended_sp := sp
  pc := 0
  cb := some ⟨4, false, some
    { method := ⟨is_synchronized, 1⟩
      is_compiled := true
      is_native_method := true
      has_monitors := false
      scope_desc_at := fun _ => []
      is_deopt_pc := fun _ => false }⟩
  interpreter_frame_method := ⟨false, 0⟩
  interpreter_frame_monitor_begin := 0
  interpreter_frame_monitor_end := 0
  interpreter_frame_expression_stack_size := 0
  interpreted_frame_oop_map := ⟨0⟩
  compiled_frame_stack_argsize := 0
  get_native_receiver := receiver

/-- A stub stack frame: a non-interpreted frame whose code blob is a runtime stub of 2 words. -/
def stub_frame : frame where
  is_interpreted_frame := false
  is_compiled_frame := false
  is_native_frame := false
  is_heap_frame := false
  sp := 40
  unextended_sp := 40
  pc := 0
  cb := some ⟨2, true, none⟩
  interpreter_frame_method := ⟨false, 0⟩
  interpreter_frame_monitor_begin := 0
  interpreter_frame_monitor_end := 0
  interpreter_frame_expression_stack_size := 0
  interpreted_frame_oop_map := ⟨0⟩
  compiled_frame_stack_argsize := 0
  get_native_receiver := 0

/-- A compiled method whose deoptimization handler is entered at pc 40. -/
def deopt_method : CompiledMethod where
  method := ⟨false, 0⟩
  is_compiled := true
  is_native_method := false
  has_monitors := false
  scope_desc_at := fun _ => []
  is_deopt_pc := fun pc => pc == 40

/-- An interpreted frame whose interpreter records an expression stack of `depth` words. -/
def interpreted_frame_of_depth (depth : Int) : frame :=
  { interpreted_frame 100 100 with interpreter_frame_expression_stack_size := depth }

/-- The table that holds object 7. -/
def table_7 : Table := Finmap.singleton 7 true

/-- The table that holds object 8. -/
def table_8 : Table := Finmap.singleton 8 true

/-- The table that holds objects 7 and 8. -/
def table_7_8 : Table := Finmap.insert 8 true (Finmap.singleton 7 true)

/-! ## Lemmas on the Fix-up Table -/

theorem Table.mem_put_if_absent (t : Table) (k o : oop) (v : Bool) :
    o ∈ (t.put_if_absent k v).1 ↔ o = k ∨ o ∈ t := by
  unfold Table.put_if_absent
  by_cases h : k ∈ t
  · simp only [h, if_true]
    constructor
    · intro ho; exact Or.inr ho
    · rintro (rfl | ho)
      · exact h
      · exact ho
  · simp only [h, if_false]
    exact Finmap.mem_insert

theorem Table.lookup_put_if_absent (t : Table) (k o : oop) (v : Bool) :
    (t.put_if_absent k v).1.lookup o =
      if o ∈ t then t.lookup o else if o = k then some v else none := by
  unfold Table.put_if_absent
  by_cases h : k ∈ t
  · simp only [h, if_true]
    by_cases ho : o ∈ t
    · simp [ho]
    · have hne : o ≠ k := fun e => ho (e ▸ h)
      simp [ho, hne, Finmap.lookup_eq_none.mpr ho]
  · simp only [h, if_false]
    by_cases hk : o = k
    · subst hk
      simp [h, Finmap.lookup_insert]
    · rw [Finmap.lookup_insert_of_ne _ hk]
      by_cases ho : o ∈ t
      · simp [ho]
      · simp [ho, hk, Finmap.lookup_eq_none.mpr ho]

theorem Table.keys_insert (t : Table) (k : oop) (v : Bool) :
    (t.insert k v).keys = insert k t.keys := by
  ext o
  simp [Finmap.mem_keys, Finmap.mem_insert]

theorem Table.card_put_if_absent (t : Table) (k : oop) (v : Bool) :
    (t.put_if_absent k v).1.number_of_entries =
      t.number_of_entries + (if (t.put_if_absent k v).2 then 1 else 0) := by
  unfold Table.put_if_absent Table.number_of_entries
  by_cases h : k ∈ t
  · simp [h]
  · have hk : k ∉ t.keys := fun hk => h (Finmap.mem_keys.mp hk)
    simp [h, Table.keys_insert, Finset.card_insert_of_not_mem hk]

/-! ## Lemmas on scans of owner lists -/

namespace ContinuationHelper

theorem record_mem (st : Nat × Table) (k o : oop) :
    o ∈ (record st k).2 ↔ o = k ∨ o ∈ st.2 := by
  unfold record
  exact Table.mem_put_if_absent st.2 k o true

theorem record_lookup (st : Nat × Table) (k o : oop) :
    (record st k).2.lookup o =
      if o ∈ st.2 then st.2.lookup o else if o = k then some true else none := by
  unfold record
  exact Table.lookup_put_if_absent st.2 k o true

theorem record_count (st : Nat × Table) (k : oop) :
    (record st k).1 + st.2.number_of_entries = st.1 + (record st k).2.number_of_entries := by
  unfold record
  simp only [Table.card_put_if_absent]
  cases (st.2.put_if_absent k true).2
  · simp
  · simp only [if_true]; omega

theorem scan_views_eq (vm : VM) (thread : JavaThread) (hp : Bool) (me : oop)
    (vs : List (Option oop)) (st : Nat × Table) :
    scan_views vm thread hp me vs st =
      if views_ok vm thread hp me vs then some (scan_pure vm me vs st) else none := by
  induction vs generalizing st with
  | nil => simp [scan_views, views_ok, scan_pure]
  | cons v vs ih =>
    cases v with
    | none => simp [scan_views, views_ok]
    | some o =>
      simp only [scan_views, fix_owner, scan_pure]
      by_cases h : owner_asserts vm thread hp me o = true
      · have hv : views_ok vm thread hp me (some o :: vs) = views_ok vm thread hp me vs := by
          simp [views_ok, h]
        simp only [h, if_true, Option.some_bind, ih, hv]
      · have hv : views_ok vm thread hp me (some o :: vs) = false := by
          simp [views_ok, h]
        simp [h, hv]

theorem scan_views_append (vm : VM) (thread : JavaThread) (hp : Bool) (me : oop)
    (l₁ l₂ : List (Option oop)) (st : Nat × Table) :
    scan_views vm thread hp me (l₁ ++ l₂) st =
      (scan_views vm thread hp me l₁ st).bind (scan_views vm thread hp me l₂) := by
  induction l₁ generalizing st with
  | nil => simp [scan_views]
  | cons v vs ih =>
    cases v with
    | none => simp [scan_views]
    | some o =>
      simp only [List.cons_append, scan_views]
      cases fix_owner vm thread hp me st o with
      | none => simp
      | some st1 => simp [ih]

theorem views_ok_iff (vm : VM) (thread : JavaThread) (hp : Bool) (me : oop)
    (vs : List (Option oop)) :
    views_ok vm thread hp me vs = true ↔
      ∀ v ∈ vs, ∃ o, v = some o ∧ owner_asserts vm thread hp me o = true := by
  unfold views_ok
  rw [List.all_eq_true]
  constructor
  · intro h v hv
    have := h v hv
    cases v with
    | none => simp at this
    | some o => exact ⟨o, rfl, this⟩
  · intro h v hv
    obtain ⟨o, rfl, ho⟩ := h v hv
    exact ho

theorem scan_pure_mem (vm : VM) (me : oop) (vs : List (Option oop)) (st : Nat × Table)
    (o : oop) :
    o ∈ (scan_pure vm me vs st).2 ↔ o ∈ st.2 ∨ (some o ∈ vs ∧ needs_fixup vm me o = true) := by
  induction vs generalizing st with
  | nil => simp [scan_pure]
  | cons v vs ih =>
    cases v with
    | none => simp [scan_pure, ih]
    | some k =>
      simp only [scan_pure, ih, List.mem_cons, Option.some.injEq]
      by_cases hk : needs_fixup vm me k = true
      · simp only [hk, if_true, record_mem]
        constructor
        · rintro ((rfl | h) | h)
          · exact Or.inr ⟨Or.inl rfl, hk⟩
          · exact Or.inl h
          · exact Or.inr ⟨Or.inr h.1, h.2⟩
        · rintro (h | ⟨rfl | h, hn⟩)
          · exact Or.inl (Or.inr h)
          · exact Or.inl (Or.inl rfl)
          · exact Or.inr ⟨h, hn⟩
      · simp only [hk, if_false]
        constructor
        · rintro (h | h)
          · exact Or.inl h
          · exact Or.inr ⟨Or.inr h.1, h.2⟩
        · rintro (h | ⟨rfl | h, hn⟩)
          · exact Or.inl h
          · exact absurd hn hk
          · exact Or.inr ⟨h, hn⟩

theorem scan_pure_lookup (vm : VM) (me : oop) (vs : List (Option oop)) (st : Nat × Table)
    (o : oop) :
    (scan_pure vm me vs st).2.lookup o =
      if o ∈ st.2 then st.2.lookup o
      else if some o ∈ vs ∧ needs_fixup vm me o = true then some true else none := by
  induction vs generalizing st with
  | nil =>
    by_cases h : o ∈ st.2
    · simp [scan_pure, h]
    · simp [scan_pure, h, Finmap.lookup_eq_none.mpr h]
  | cons v vs ih =>
    cases v with
    | none => simp [scan_pure, ih]
    | some k =>
      simp only [scan_pure, ih, List.mem_cons, Option.some.injEq]
      by_cases hk : needs_fixup vm me k = true
      · simp only [hk, if_true, record_mem, record_lookup]
        by_cases ho : o ∈ st.2
        · simp [ho]
        · by_cases hok : o = k
          · subst hok
            simp [ho, hk]
          · simp [ho, hok]
      · simp only [hk, if_false]
        by_cases ho : o ∈ st.2
        · simp [ho]
        · by_cases hok : o = k
          · subst hok
            simp [ho, hk]
          · simp [ho, hok]

theorem scan_pure_count (vm : VM) (me : oop) (vs : List (Option oop)) (st : Nat × Table) :
    (scan_pure vm me vs st).1 + st.2.number_of_entries =
      st.1 + (scan_pure vm me vs st).2.number_of_entries := by
  induction vs generalizing st with
  | nil => simp [scan_pure]
  | cons v vs ih =>
    cases v with
    | none => simpa [scan_pure] using ih st
    | some k =>
      simp only [scan_pure]
      by_cases hk : needs_fixup vm me k = true
      · simp only [hk, if_true]
        have h1 := ih (record st k)
        have h2 := record_count st k
        omega
      · simp only [hk, if_false]
        exact ih st

/-- Two owner lists with the same owners requiring a fix-up leave the same state. -/
theorem scan_pure_congr (vm : VM) (me : oop) (vs ws : List (Option oop)) (st : Nat × Table)
    (h : ∀ o, needs_fixup vm me o = true → (some o ∈ vs ↔ some o ∈ ws)) :
    scan_pure vm me vs st = scan_pure vm me ws st := by
  have ht : (scan_pure vm me vs st).2 = (scan_pure vm me ws st).2 := by
    apply Finmap.ext_lookup
    intro o
    rw [scan_pure_lookup, scan_pure_lookup]
    by_cases hn : needs_fixup vm me o = true
    · simp [h o hn, hn]
    · simp [hn]
  have h1 := scan_pure_count vm me vs st
  have h2 := scan_pure_count vm me ws st
  rw [ht] at h1
  exact Prod.ext (by omega) ht

/-! ## The interpreted scanner as a scan of the monitor slots -/

theorem interp_loop_succ (vm : VM) (thread : JavaThread) (f : frame)
    (chunk : Option stackChunk) (me : oop) (last_mon : Int) (fuel : Nat) (current : Int)
    (st : Nat × Table) (h : current ≥ last_mon) :
    InterpretedFrame.monitors_to_fix_loop vm thread f chunk me last_mon (fuel + 1) current st =
      (InterpretedFrame.load_owner vm f chunk current).bind fun o =>
        (fix_owner vm thread f.is_heap_frame me st o).bind
          (InterpretedFrame.monitors_to_fix_loop vm thread f chunk me last_mon fuel
            (current - (vm.interpreter_frame_monitor_size : Int))) := by
  obtain ⟨c, t⟩ := st
  simp only [InterpretedFrame.monitors_to_fix_loop, h, if_true,
    frame.previous_monitor_in_interpreter_frame]
  cases InterpretedFrame.load_owner vm f chunk current with
  | none => rfl
  | some o =>
    simp only [Option.bind_eq_bind, Option.some_bind, fix_owner, owner_asserts, needs_fixup,
      record, vm_assert]
    by_cases h1 : (o != nullptr && o != me) = true
    · by_cases h2 : ((vm.mark o).has_monitor && !(vm.mark o).monitor.is_owner_anonymous) = true
      · by_cases h3 : (vm.mark o).monitor.is_owner thread = true
        · simp [h1, h2, h3]
        · simp [h1, h2, h3]
      · by_cases h4 : (!f.is_heap_frame || vm.LockingMode == LM_LIGHTWEIGHT) = true
        · simp [h1, h2, h4]
        · simp [h1, h2, h4]
    · simp [h1]

theorem interp_loop_stop (vm : VM) (thread : JavaThread) (f : frame)
    (chunk : Option stackChunk) (me : oop) (last_mon : Int) (fuel : Nat) (current : Int)
    (st : Nat × Table) (h : ¬ current ≥ last_mon) :
    InterpretedFrame.monitors_to_fix_loop vm thread f chunk me last_mon fuel current st =
      some st := by
  obtain ⟨c, t⟩ := st
  cases fuel with
  | zero => simp [InterpretedFrame.monitors_to_fix_loop, h]
  | succ n => simp [InterpretedFrame.monitors_to_fix_loop, h]

theorem interp_loop_eq (vm : VM) (thread : JavaThread) (f : frame)
    (chunk : Option stackChunk) (me : oop) (last_mon : Int)
    (hsz : 0 < vm.interpreter_frame_monitor_size) :
    ∀ (fuel : Nat) (current : Int) (st : Nat × Table),
      (current + (vm.interpreter_frame_monitor_size : Int) - last_mon).toNat /
          vm.interpreter_frame_monitor_size ≤ fuel →
      InterpretedFrame.monitors_to_fix_loop vm thread f chunk me last_mon fuel current st =
        scan_views vm thread f.is_heap_frame me
          ((List.range ((current + (vm.interpreter_frame_monitor_size : Int) - last_mon).toNat /
              vm.interpreter_frame_monitor_size)).map fun (k : Nat) =>
            InterpretedFrame.load_owner vm f chunk
              (current - (k : Int) * (vm.interpreter_frame_monitor_size : Int))) st := by
  intro fuel
  induction fuel with
  | zero =>
    intro current st hle
    have h0 : (current + (vm.interpreter_frame_monitor_size : Int) - last_mon).toNat /
        vm.interpreter_frame_monitor_size = 0 := Nat.le_zero.mp hle
    have hlt := (Nat.div_eq_zero_iff hsz).mp h0
    have hc : ¬ current ≥ last_mon := by omega
    rw [interp_loop_stop _ _ _ _ _ _ _ _ _ hc, h0]
    simp [scan_views]
  | succ n ih =>
    intro current st hle
    by_cases hc : current ≥ last_mon
    · rw [interp_loop_succ _ _ _ _ _ _ _ _ _ hc]
      have hd : vm.interpreter_frame_monitor_size ≤
          (current + (vm.interpreter_frame_monitor_size : Int) - last_mon).toNat := by omega
      have hdiv : (current + (vm.interpreter_frame_monitor_size : Int) - last_mon).toNat /
          vm.interpreter_frame_monitor_size =
          (current - (vm.interpreter_frame_monitor_size : Int) +
            (vm.interpreter_frame_monitor_size : Int) - last_mon).toNat /
            vm.interpreter_frame_monitor_size + 1 := by
        rw [Nat.div_eq_sub_div hsz hd]
        congr 2
        omega
      rw [hdiv] at hle ⊢
      rw [List.range_succ_eq_map, List.map_cons, List.map_map]
      have hih := ih (current - (vm.interpreter_frame_monitor_size : Int)) 
      simp only [Nat.cast_zero, zero_mul, sub_zero]
      cases hl : InterpretedFrame.load_owner vm f chunk current with
      | none => simp [scan_views]
      | some o =>
        simp only [Option.some_bind, scan_views]
        cases fix_owner vm thread f.is_heap_frame me st o with
        | none => rfl
        | some st1 =>
          simp only [Option.some_bind]
          rw [hih st1 (by omega)]
          congr 1
          apply List.map_congr_left
          intro k _
          simp only [Function.comp, Nat.cast_succ]
          congr 1
          ring
    · have hlt : (current + (vm.interpreter_frame_monitor_size : Int) - last_mon).toNat <
          vm.interpreter_frame_monitor_size := by omega
      rw [interp_loop_stop _ _ _ _ _ _ _ _ _ hc, Nat.div_eq_of_lt hlt]
      simp [scan_views]

/-- The interpreted scanner on a well-delimited frame with positive slot size: a scan of the
owners read from its monitor slots. -/
theorem interp_scan_eq (vm : VM) (thread : JavaThread) (f : frame) (table : Table)
    (chunk : Option stackChunk)
    (hle : f.interpreter_frame_monitor_end ≤ f.interpreter_frame_monitor_begin)
    (hsz : 0 < vm.interpreter_frame_monitor_size) :
    InterpretedFrame.monitors_to_fix vm thread f table chunk =
      scan_views vm thread f.is_heap_frame (monitorenter_oop thread)
        (InterpretedFrame.monitor_views vm f chunk) (0, table) := by
  unfold InterpretedFrame.monitors_to_fix
  simp only [vm_assert, hle, decide_True, if_true, Option.bind_eq_bind, Option.some_bind,
    Option.pure_def]
  by_cases he : f.interpreter_frame_monitor_begin = f.interpreter_frame_monitor_end
  · simp [he, InterpretedFrame.monitor_views, InterpretedFrame.monitor_slots,
      InterpretedFrame.monitor_count, scan_views]
  · simp only [he, if_false, frame.previous_monitor_in_interpreter_frame]
    rw [interp_loop_eq vm thread f chunk _ _ hsz]
    · simp only [InterpretedFrame.monitor_views, InterpretedFrame.monitor_slots,
        InterpretedFrame.monitor_count, List.map_map]
      have e : f.interpreter_frame_monitor_begin - (vm.interpreter_frame_monitor_size : Int) +
          (vm.interpreter_frame_monitor_size : Int) - f.interpreter_frame_monitor_end =
          f.interpreter_frame_monitor_begin - f.interpreter_frame_monitor_end := by ring
      rw [e]
      congr 1
      apply List.map_congr_left
      intro k _
      simp only [Function.comp]
      congr 1
      ring
    · have e : f.interpreter_frame_monitor_begin - (vm.interpreter_frame_monitor_size : Int) +
          (vm.interpreter_frame_monitor_size : Int) - f.interpreter_frame_monitor_end =
          f.interpreter_frame_monitor_begin - f.interpreter_frame_monitor_end := by ring
      rw [e]
      exact Nat.div_le_self _ _

/-! ## The compiled scanner as a scan of the scope chain -/

theorem fix_owner_nullptr (vm : VM) (thread : JavaThread) (hp : Bool) (me : oop)
    (st : Nat × Table) : fix_owner vm thread hp me st nullptr = some st := by
  simp [fix_owner, owner_asserts, needs_fixup]

theorem compiled_scope_succ (vm : VM) (thread : JavaThread) (map : RegisterMapT) (f : frame)
    (me : oop) (mons : List MonitorValue) (index : Nat) (st : Nat × Table) :
    CompiledFrame.monitors_to_fix_scope vm thread map f me mons (index + 1) st =
      (mons.get? index).bind fun mon =>
        ((CompiledFrame.monitor_view vm map f mon).bind
            (fix_owner vm thread f.is_heap_frame me st)).bind
          (CompiledFrame.monitors_to_fix_scope vm thread map f me mons index) := by
  obtain ⟨c, t⟩ := st
  simp only [CompiledFrame.monitors_to_fix_scope]
  cases mons.get? index with
  | none => rfl
  | some mon =>
    simp only [Option.bind_eq_bind, Option.some_bind, CompiledFrame.monitor_view]
    by_cases he : mon.eliminated = true
    · simp [he, fix_owner_nullptr]
    · simp only [he, if_false, fix_owner, owner_asserts, needs_fixup, record, vm_assert]
      generalize vm.create_stack_value f map mon.owner = o
      by_cases h1 : (o != nullptr && o != me) = true
      · by_cases h2 : ((vm.mark o).has_monitor && !(vm.mark o).monitor.is_owner_anonymous) = true
        · by_cases h3 : (vm.mark o).monitor.is_owner thread = true
          · simp [h1, h2, h3]
          · simp [h1, h2, h3]
        · by_cases h4 : (!f.is_heap_frame || vm.LockingMode == LM_LIGHTWEIGHT) = true
          · simp [h1, h2, h4]
          · simp [h1, h2, h4]
      · simp [h1]

theorem compiled_scope_eq (vm : VM) (thread : JavaThread) (map : RegisterMapT) (f : frame)
    (me : oop) (mons : List MonitorValue) :
    ∀ (n : Nat) (st : Nat × Table), n ≤ mons.length →
      CompiledFrame.monitors_to_fix_scope vm thread map f me mons n st =
        scan_views vm thread f.is_heap_frame me
          (((mons.take n).reverse).map (CompiledFrame.monitor_view vm map f)) st := by
  intro n
  induction n with
  | zero =>
    intro st _
    simp [CompiledFrame.monitors_to_fix_scope, scan_views]
  | succ n ih =>
    intro st hn
    have hlt : n < mons.length := hn
    have hg : mons[n]? = some (mons.get ⟨n, hlt⟩) := by
      simp [List.getElem?_eq_getElem hlt]
    rw [compiled_scope_succ, List.get?_eq_get hlt, List.take_succ, hg]
    simp only [Option.some_bind, Option.toList, List.reverse_append, List.reverse_cons,
      List.reverse_nil, List.nil_append, List.singleton_append, List.map_cons]
    simp only [CompiledFrame.monitor_view, Option.some_bind, scan_views]
    cases fix_owner vm thread f.is_heap_frame me st
        (if (mons.get ⟨n, hlt⟩).eliminated = true then nullptr
          else vm.create_stack_value f map (mons.get ⟨n, hlt⟩).owner) with
    | none => rfl
    | some st1 =>
      simp only [Option.some_bind]
      rw [ih st1 (Nat.le_of_lt hlt)]

theorem compiled_scopes_eq (vm : VM) (thread : JavaThread) (map : RegisterMapT) (f : frame)
    (me : oop) (scopes : List ScopeDesc) (st : Nat × Table) :
    CompiledFrame.monitors_to_fix_scopes vm thread map f me scopes st =
      scan_views vm thread f.is_heap_frame me
        ((CompiledFrame.chain_monitors scopes).map (CompiledFrame.monitor_view vm map f)) st := by
  induction scopes generalizing st with
  | nil => simp [CompiledFrame.monitors_to_fix_scopes, CompiledFrame.chain_monitors, scan_views]
  | cons scope sender ih =>
    have hc : CompiledFrame.chain_monitors (scope :: sender) =
        CompiledFrame.scope_monitors scope ++ CompiledFrame.chain_monitors sender := by
      simp [CompiledFrame.chain_monitors]
    rw [hc, List.map_append, scan_views_append]
    unfold CompiledFrame.monitors_to_fix_scopes
    cases hm : scope.monitors with
    | none =>
      simp [CompiledFrame.scope_monitors, hm, scan_views, ih]
    | some mons =>
      simp only [CompiledFrame.scope_monitors, hm, Option.getD_some]
      by_cases he : mons.isEmpty = true
      · have : mons = [] := List.isEmpty_iff.mp he
        subst this
        simp [scan_views, ih]
      · simp only [he, Bool.false_eq_true, if_false, Option.bind_eq_bind]
        rw [compiled_scope_eq vm thread map f me mons mons.length st (le_refl _),
          List.take_length]
        cases scan_views vm thread f.is_heap_frame me
            (List.map (CompiledFrame.monitor_view vm map f) mons.reverse) st with
        | none => rfl
        | some st1 => simp [ih]

/-- Eliminated monitors and their null views do not matter: the scan of the views of a monitor
list is the scan of the decoded owners of its non-eliminated monitors. -/
theorem scan_monitor_views (vm : VM) (thread : JavaThread) (map : RegisterMapT) (f : frame)
    (me : oop) (mons : List MonitorValue) (st : Nat × Table) :
    scan_views vm thread f.is_heap_frame me (mons.map (CompiledFrame.monitor_view vm map f)) st =
      scan_views vm thread f.is_heap_frame me
        (((mons.filter fun mon => !mon.eliminated).map fun mon =>
          vm.create_stack_value f map mon.owner).map some) st := by
  induction mons generalizing st with
  | nil => rfl
  | cons mon mons ih =>
    by_cases he : mon.eliminated = true
    · simp only [List.map_cons, CompiledFrame.monitor_view, he, if_true, scan_views,
        fix_owner_nullptr, Option.some_bind, Bool.not_true, Bool.false_eq_true,
        not_false_eq_true, List.filter_cons_of_neg]
      exact ih st
    · have he2 : (!mon.eliminated) = true := by simpa using he
      have hf : List.filter (fun mon : MonitorValue => !mon.eliminated) (mon :: mons) =
          mon :: List.filter (fun mon : MonitorValue => !mon.eliminated) mons :=
        List.filter_cons_of_pos he2
      rw [hf]
      simp only [List.map_cons, CompiledFrame.monitor_view, he, if_false, scan_views,
        Bool.false_eq_true]
      cases fix_owner vm thread f.is_heap_frame me st (vm.create_stack_value f map mon.owner) with
      | none => rfl
      | some st1 => simp only [Option.some_bind]; exact ih st1

/-- The compiled scanner on a frame with a compiled method: the flag assertions, the
`has_monitors` shortcut, then a scan of the owners of the non-eliminated monitors. -/
theorem compiled_scan_eq (vm : VM) (thread : JavaThread) (map : RegisterMapT) (f : frame)
    (table : Table) (cb : CodeBlob) (cm : CompiledMethod) (hcb : f.cb = some cb)
    (hcm : cb.as_compiled_method = some cm) :
    CompiledFrame.monitors_to_fix vm thread map f table =
      if (!f.is_interpreted_frame && CompiledFrame.is_instance f &&
          (!cm.is_compiled || !cm.is_native_method)) = true then
        if cm.has_monitors = true then
          scan_views vm thread f.is_heap_frame (monitorenter_oop thread)
            ((CompiledFrame.monitor_owners vm map f (cm.scope_desc_at f.pc)).map some) (0, table)
        else some (0, table)
      else none := by
  unfold CompiledFrame.monitors_to_fix
  simp only [hcb, hcm, Option.bind_eq_bind, Option.some_bind, vm_assert, Option.pure_def,
    compiled_scopes_eq, scan_monitor_views, CompiledFrame.monitor_owners]
  cases f.is_interpreted_frame <;> cases CompiledFrame.is_instance f <;>
    cases cm.is_compiled <;> cases cm.is_native_method <;> cases cm.has_monitors <;> simp

/-! ## Results of complete scans -/

theorem needs_fixup_iff (vm : VM) (me o : oop) :
    needs_fixup vm me o = true ↔
      o ≠ nullptr ∧ o ≠ me ∧
        ¬ ((vm.mark o).has_monitor = true ∧ (vm.mark o).monitor.is_owner_anonymous = false) := by
  unfold needs_fixup
  cases (vm.mark o).has_monitor <;> cases (vm.mark o).monitor.is_owner_anonymous <;>
    simp [and_assoc]

theorem interp_scan_ok (vm : VM) (thread : JavaThread) (f : frame) (table : Table)
    (chunk : Option stackChunk)
    (h : InterpretedFrame.scan_preconditions vm thread f chunk = true) :
    InterpretedFrame.monitors_to_fix vm thread f table chunk =
      some (scan_pure vm (monitorenter_oop thread) (InterpretedFrame.monitor_views vm f chunk)
        (0, table)) := by
  unfold InterpretedFrame.scan_preconditions at h
  simp only [Bool.and_eq_true, decide_eq_true_eq] at h
  obtain ⟨⟨hle, hsz⟩, hv⟩ := h
  rw [interp_scan_eq vm thread f table chunk hle hsz, scan_views_eq, hv]
  rfl

theorem compiled_scan_ok (vm : VM) (thread : JavaThread) (map : RegisterMapT) (f : frame)
    (table : Table) (cb : CodeBlob) (cm : CompiledMethod) (hcb : f.cb = some cb)
    (hcm : cb.as_compiled_method = some cm)
    (h : CompiledFrame.scan_preconditions vm thread map f cm = true) :
    CompiledFrame.monitors_to_fix vm thread map f table =
      some (if cm.has_monitors = true then
          scan_pure vm (monitorenter_oop thread)
            ((CompiledFrame.monitor_owners vm map f (cm.scope_desc_at f.pc)).map some) (0, table)
        else (0, table)) := by
  unfold CompiledFrame.scan_preconditions at h
  rw [Bool.and_eq_true] at h
  obtain ⟨hflags, hown⟩ := h
  have hv : views_ok vm thread f.is_heap_frame (monitorenter_oop thread)
      ((CompiledFrame.monitor_owners vm map f (cm.scope_desc_at f.pc)).map some) = true := by
    rw [views_ok_iff]
    intro v hv
    obtain ⟨o, ho, rfl⟩ := List.mem_map.mp hv
    exact ⟨o, rfl, List.all_eq_true.mp hown o ho⟩
  rw [compiled_scan_eq vm thread map f table cb cm hcb hcm, hflags, scan_views_eq, hv]
  by_cases hm : cm.has_monitors = true
  · simp [hm]
  · simp [hm]

theorem mem_monitor_owners_iff (vm : VM) (map : RegisterMapT) (f : frame)
    (scopes : List ScopeDesc) (o : oop) :
    o ∈ CompiledFrame.monitor_owners vm map f scopes ↔
      ∃ scope ∈ scopes, ∃ mons, scope.monitors = some mons ∧
        ∃ mon ∈ mons, mon.eliminated = false ∧ vm.create_stack_value f map mon.owner = o := by
  unfold CompiledFrame.monitor_owners CompiledFrame.chain_monitors CompiledFrame.scope_monitors
  simp only [List.mem_map, List.mem_filter, List.mem_flatten, Bool.not_eq_true',
    exists_exists_and_eq_and]
  constructor
  · rintro ⟨mon, ⟨⟨scope, hs, hm⟩, he⟩, rfl⟩
    cases hmon : scope.monitors with
    | none => simp [hmon] at hm
    | some mons =>
      rw [hmon, Option.getD_some, List.mem_reverse] at hm
      exact ⟨scope, hs, mons, hmon, mon, hm, he, rfl⟩
  · rintro ⟨scope, hs, mons, hmon, mon, hm, he, rfl⟩
    refine ⟨mon, ⟨⟨scope, hs, ?_⟩, he⟩, rfl⟩
    rw [hmon, Option.getD_some, List.mem_reverse]
    exact hm

theorem mem_monitor_views_iff (vm : VM) (f : frame) (chunk : Option stackChunk) (o : oop) :
    some o ∈ InterpretedFrame.monitor_views vm f chunk ↔
      ∃ slot ∈ InterpretedFrame.monitor_slots vm f,
        InterpretedFrame.load_owner vm f chunk slot = some o := by
  unfold InterpretedFrame.monitor_views
  simp [List.mem_map]

/-! ## Every returning scan is a scan of some owner list -/

theorem fix_owner_some (vm : VM) (thread : JavaThread) (hp : Bool) (me : oop)
    (st st1 : Nat × Table) (o : oop) (h : fix_owner vm thread hp me st o = some st1) :
    st1 = scan_pure vm me [some o] st := by
  unfold fix_owner at h
  by_cases ha : owner_asserts vm thread hp me o = true
  · simp only [ha, if_true, Option.some.injEq] at h
    simp [scan_pure, ← h]
  · simp [ha] at h

theorem scan_pure_append (vm : VM) (me : oop) (l₁ l₂ : List (Option oop)) (st : Nat × Table) :
    scan_pure vm me (l₁ ++ l₂) st = scan_pure vm me l₂ (scan_pure vm me l₁ st) := by
  induction l₁ generalizing st with
  | nil => rfl
  | cons v vs ih =>
    cases v with
    | none => simpa [scan_pure] using ih st
    | some o => simp only [List.cons_append, scan_pure]; exact ih _

theorem interp_loop_sound (vm : VM) (thread : JavaThread) (f : frame)
    (chunk : Option stackChunk) (me : oop) (last_mon : Int) :
    ∀ (fuel : Nat) (current : Int) (st r : Nat × Table),
      InterpretedFrame.monitors_to_fix_loop vm thread f chunk me last_mon fuel current st =
        some r →
      ∃ vs, r = scan_pure vm me vs st := by
  intro fuel
  induction fuel with
  | zero =>
    intro current st r h
    by_cases hc : current ≥ last_mon
    · obtain ⟨c, t⟩ := st
      simp [InterpretedFrame.monitors_to_fix_loop, hc] at h
    · rw [interp_loop_stop _ _ _ _ _ _ _ _ _ hc] at h
      exact ⟨[], by simpa [scan_pure] using h.symm⟩
  | succ n ih =>
    intro current st r h
    by_cases hc : current ≥ last_mon
    · rw [interp_loop_succ _ _ _ _ _ _ _ _ _ hc] at h
      cases hl : InterpretedFrame.load_owner vm f chunk current with
      | none => simp [hl] at h
      | some o =>
        rw [hl, Option.some_bind] at h
        cases hf : fix_owner vm thread f.is_heap_frame me st o with
        | none => simp [hf] at h
        | some st1 =>
          rw [hf, Option.some_bind] at h
          obtain ⟨vs, hvs⟩ := ih _ st1 r h
          refine ⟨some o :: vs, ?_⟩
          rw [hvs, fix_owner_some vm thread _ me st st1 o hf]
          rfl
    · rw [interp_loop_stop _ _ _ _ _ _ _ _ _ hc] at h
      exact ⟨[], by simpa [scan_pure] using h.symm⟩

theorem interp_scan_sound (vm : VM) (thread : JavaThread) (f : frame) (table : Table)
    (chunk : Option stackChunk) (r : Nat × Table)
    (h : InterpretedFrame.monitors_to_fix vm thread f table chunk = some r) :
    ∃ vs, r = scan_pure vm (monitorenter_oop thread) vs (0, table) := by
  unfold InterpretedFrame.monitors_to_fix at h
  by_cases hle : f.interpreter_frame_monitor_end ≤ f.interpreter_frame_monitor_begin
  · simp only [vm_assert, hle, decide_True, if_true, Option.bind_eq_bind, Option.some_bind,
      Option.pure_def] at h
    by_cases he : f.interpreter_frame_monitor_begin = f.interpreter_frame_monitor_end
    · simp only [he, if_true, Option.some.injEq] at h
      exact ⟨[], by simpa [scan_pure] using h.symm⟩
    · simp only [he, if_false] at h
      exact interp_loop_sound vm thread f chunk _ _ _ _ _ _ h
  · simp [vm_assert, hle] at h

theorem compiled_scan_sound (vm : VM) (thread : JavaThread) (map : RegisterMapT) (f : frame)
    (table : Table) (r : Nat × Table)
    (h : CompiledFrame.monitors_to_fix vm thread map f table = some r) :
    ∃ vs, r = scan_pure vm (monitorenter_oop thread) vs (0, table) := by
  cases hcb : f.cb with
  | none => simp [CompiledFrame.monitors_to_fix, hcb] at h
  | some cb =>
    cases hcm : cb.as_compiled_method with
    | none => simp [CompiledFrame.monitors_to_fix, hcb, hcm] at h
    | some cm =>
      rw [compiled_scan_eq vm thread map f table cb cm hcb hcm] at h
      split at h
      · split at h
        · rw [scan_views_eq] at h
          split at h
          · exact ⟨_, (Option.some.inj h).symm⟩
          · cases h
        · exact ⟨[], by simpa [scan_pure] using (Option.some.inj h).symm⟩
      · cases h

theorem native_scan_sound (vm : VM) (thread : JavaThread) (f : frame) (table : Table)
    (r : Nat × Table) (h : NativeFrame.monitors_to_fix vm thread f table = some r) :
    r = (0, table) ∨
      (needs_fixup vm (monitorenter_oop thread) f.get_native_receiver = true ∧
        r = scan_pure vm (monitorenter_oop thread) [some f.get_native_receiver] (0, table)) := by
  unfold NativeFrame.monitors_to_fix at h
  cases hcb : f.cb with
  | none => simp [hcb] at h
  | some cb =>
    cases hcm : cb.as_compiled_method with
    | none => simp [hcb, hcm] at h
    | some cm =>
      simp only [hcb, hcm, Option.bind_eq_bind, Option.some_bind, Option.pure_def, vm_assert] at h
      by_cases h0 : NativeFrame.is_instance f = true
      · simp only [h0, if_true, Option.some_bind] at h
        by_cases hs : cm.method.is_synchronized = true
        · simp only [hs, Bool.not_true, Bool.false_eq_true, if_false] at h
          by_cases ht : f.sp = thread.last_Java_sp
          · simp only [ht, decide_True, Bool.not_true, Bool.false_eq_true, if_false] at h
            split at h
            · simp only [Option.some_bind] at h
              split at h
              · exact Or.inl (Option.some.inj h).symm
              · simp at h
            · simp at h
          · simp only [ht, decide_False, Bool.not_false, if_true] at h
            by_cases h1 : vm.current_thread_holds_lock thread f.get_native_receiver = true
            · by_cases h2 : (monitorenter_oop thread == nullptr ||
                  monitorenter_oop thread != f.get_native_receiver) = true
              · by_cases h3 : (f.get_native_receiver != nullptr) = true
                · have h3' : f.get_native_receiver ≠ nullptr := by simpa using h3
                  simp only [h1, h2, if_true, Option.some_bind, oop_mark, h3', if_false] at h
                  by_cases h4 : ((vm.mark f.get_native_receiver).has_monitor &&
                      !(vm.mark f.get_native_receiver).monitor.is_owner_anonymous) = true
                  · simp only [h4, if_true] at h
                    split at h
                    · exact Or.inl (Option.some.inj h).symm
                    · simp at h
                  · simp only [h4, Bool.false_eq_true, if_false] at h
                    split at h
                    · simp only [Option.some_bind] at h
                      have hn : needs_fixup vm (monitorenter_oop thread)
                          f.get_native_receiver = true := by
                        unfold needs_fixup
                        simp only [Bool.not_eq_true] at h4
                        simp only [h4, Bool.not_false, Bool.and_true, Bool.and_eq_true, h3,
                          true_and]
                        simp only [Bool.or_eq_true, beq_iff_eq, bne_iff_ne, ne_eq] at h2 h3 ⊢
                        rcases h2 with h2 | h2
                        · rw [h2]; exact h3
                        · exact fun e => h2 e.symm
                      refine Or.inr ⟨hn, ?_⟩
                      simp only [scan_pure, hn, if_true, record]
                      split at h
                      · rename_i hc
                        rw [← Option.some.inj h, hc]
                        simp
                      · rename_i hc
                        rw [← Option.some.inj h]
                        simp only [Bool.not_eq_true] at hc
                        simp [hc]
                    · simp at h
                · have h3' : f.get_native_receiver = nullptr := by simpa using h3
                  simp [h1, h2, oop_mark, h3'] at h
              · simp [h1, h2] at h
            · simp [h1] at h
        · simp only [hs, Bool.not_false, if_true, Option.some.injEq] at h
          exact Or.inl h.symm
      · simp [h0] at h

theorem rescan_sound (vm : VM) (me : oop) (scan : Table → Option (Nat × Table))
    (hscan : ∀ table r, scan table = some r → ∃ vs, r = scan_pure vm me vs (0, table)) :
    ∀ (k : Nat) (table : Table) (r : Nat × Table), rescan scan k table = some r →
      ∃ vs, r = scan_pure vm me vs (0, table) := by
  intro k
  induction k with
  | zero =>
    intro table r h
    exact ⟨[], by simpa [rescan, scan_pure] using h.symm⟩
  | succ k ih =>
    intro table r h
    simp only [rescan] at h
    cases hs : scan table with
    | none => simp [hs] at h
    | some r1 =>
      rw [hs, Option.some_bind] at h
      cases hk : rescan scan k r1.2 with
      | none => simp [hk] at h
      | some r2 =>
        rw [hk, Option.map_some'] at h
        obtain ⟨vs1, h1⟩ := hscan table r1 hs
        obtain ⟨vs2, h2⟩ := ih r1.2 r2 hk
        refine ⟨vs1 ++ vs2, ?_⟩
        rw [scan_pure_append, ← h1, ← Option.some.inj h]
        have hc1 := scan_pure_count vm me vs2 (0, r1.2)
        have hc2 := scan_pure_count vm me vs2 r1
        have ht : (scan_pure vm me vs2 r1).2 = (scan_pure vm me vs2 (0, r1.2)).2 := by
          apply Finmap.ext_lookup
          intro o
          rw [scan_pure_lookup, scan_pure_lookup]
        rw [← h2] at hc1 ht
        rw [ht] at hc2
        simp only at hc1
        exact Prod.ext (by simp only; omega) ht.symm

/-! ## A scan depends on the set of owners only -/

theorem scan_views_congr (vm : VM) (thread : JavaThread) (hp : Bool) (me : oop)
    (vs ws : List (Option oop)) (st : Nat × Table) (h : ∀ v, v ∈ vs ↔ v ∈ ws) :
    scan_views vm thread hp me vs st = scan_views vm thread hp me ws st := by
  have hok : views_ok vm thread hp me vs = views_ok vm thread hp me ws := by
    rw [Bool.eq_iff_iff, views_ok_iff, views_ok_iff]
    constructor
    · intro hv v hw
      exact hv v ((h v).mpr hw)
    · intro hv v hw
      exact hv v ((h v).mp hw)
  rw [scan_views_eq, scan_views_eq, hok,
    scan_pure_congr vm me vs ws st fun o _ => h (some o)]

theorem mem_insert_dup {α : Type} (l₁ l₂ : List α) (x : α) (hx : x ∈ l₁ ++ l₂) (v : α) :
    v ∈ l₁ ++ x :: l₂ ↔ v ∈ l₁ ++ l₂ := by
  simp only [List.mem_append, List.mem_cons] at hx ⊢
  constructor
  · rintro (h | rfl | h)
    · exact Or.inl h
    · exact hx
    · exact Or.inr h
  · rintro (h | h)
    · exact Or.inl h
    · exact Or.inr (Or.inr h)

theorem interp_views_nonempty (vm : VM) (f : frame) (chunk : Option stackChunk)
    (h : InterpretedFrame.monitor_views vm f chunk ≠ []) :
    f.interpreter_frame_monitor_end ≤ f.interpreter_frame_monitor_begin ∧
      0 < vm.interpreter_frame_monitor_size := by
  have hc : InterpretedFrame.monitor_count vm f ≠ 0 := by
    intro h0
    apply h
    simp [InterpretedFrame.monitor_views, InterpretedFrame.monitor_slots, h0]
  unfold InterpretedFrame.monitor_count at hc
  constructor
  · by_contra hlt
    apply hc
    have : (f.interpreter_frame_monitor_begin - f.interpreter_frame_monitor_end).toNat = 0 :=
      Int.toNat_eq_zero.mpr (by linarith)
    rw [this, Nat.zero_div]
  · by_contra hz
    apply hc
    have : vm.interpreter_frame_monitor_size = 0 := by omega
    rw [this, Nat.div_zero]

theorem scan_pure_single (vm : VM) (me : oop) (vs : List (Option oop)) (o : oop)
    (hn : needs_fixup vm me o = true) (hmem : some o ∈ vs)
    (hall : ∀ o', some o' ∈ vs → o' = o) :
    scan_pure vm me vs (0, ∅) = (1, Finmap.singleton o true) := by
  rw [scan_pure_congr vm me vs [some o] (0, ∅)]
  · simp only [scan_pure, hn, if_true]
    rfl
  · intro o' _
    constructor
    · intro h
      rw [hall o' h]
      exact List.mem_singleton_self _
    · intro h
      rw [List.mem_singleton] at h
      rw [h]
      exact hmem

/-! ## Deleting the eliminated monitors -/

theorem chain_monitors_delete_eliminated (scopes : List ScopeDesc) :
    CompiledFrame.chain_monitors (scopes.map ScopeDesc.delete_eliminated) =
      (CompiledFrame.chain_monitors scopes).filter fun mon => !mon.eliminated := by
  induction scopes with
  | nil => rfl
  | cons scope sender ih =>
    have h1 : CompiledFrame.scope_monitors scope.delete_eliminated =
        (CompiledFrame.scope_monitors scope).filter fun mon => !mon.eliminated := by
      unfold CompiledFrame.scope_monitors ScopeDesc.delete_eliminated
      cases scope.monitors with
      | none => rfl
      | some mons => simp [List.filter_reverse]
    unfold CompiledFrame.chain_monitors at ih ⊢
    simp only [List.map_cons, List.flatten_cons, List.filter_append, ih, h1]

theorem monitor_owners_delete_eliminated (vm : VM) (map : RegisterMapT) (f g : frame)
    (scopes : List ScopeDesc)
    (hdec : ∀ ov, vm.create_stack_value g map ov = vm.create_stack_value f map ov) :
    CompiledFrame.monitor_owners vm map g (scopes.map ScopeDesc.delete_eliminated) =
      CompiledFrame.monitor_owners vm map f scopes := by
  unfold CompiledFrame.monitor_owners
  rw [chain_monitors_delete_eliminated, List.filter_filter]
  simp only [Bool.and_self]
  apply List.map_congr_left
  intro mon _
  exact hdec mon.owner

theorem scan_pure_pair (vm : VM) (me : oop) (vs : List (Option oop)) (o₁ o₂ : oop)
    (h12 : o₁ ≠ o₂) (hn₁ : needs_fixup vm me o₁ = true) (hn₂ : needs_fixup vm me o₂ = true)
    (hmem : ∀ o, some o ∈ vs ↔ o = o₁ ∨ o = o₂) :
    (scan_pure vm me vs (0, ∅)).1 = 2 ∧
      ∀ o, o ∈ (scan_pure vm me vs (0, ∅)).2 ↔ o = o₁ ∨ o = o₂ := by
  rw [scan_pure_congr vm me vs [some o₁, some o₂] (0, ∅)]
  · simp only [scan_pure, hn₁, hn₂, if_true]
    constructor
    · have h2 : o₂ ∉ (record (0, ∅) o₁).2 := by
        rw [record_mem]
        simp [Finmap.not_mem_empty, Ne.symm h12]
      have h1 : o₁ ∉ (∅ : Table) := Finmap.not_mem_empty
      simp only [record, Table.put_if_absent] at h2 ⊢
      simp only [h1, if_false] at h2 ⊢
      simp [h2]
    · intro o
      rw [record_mem, record_mem]
      simp only [Finmap.not_mem_empty, or_false]
      exact Or.comm
  · intro o _
    rw [hmem o]
    simp

/-! ## The claims -/

theorem assert_bind_some {α : Type} (c : Bool) (x o : α)
    (h : ((vm_assert c).bind fun _ => some x) = some o) : o = x := by
  cases c with
  | false => simp [vm_assert] at h
  | true =>
    simp [vm_assert] at h
    exact h.symm

theorem slot_owner_unique (vm : VM) (f : frame) (chunk : Option stackChunk) (slot : intptr)
    (o o' : oop)
    (h : (f.is_heap_frame = false ∧ o = vm.memory (vm.obj_adr slot)) ∨
      (f.is_heap_frame = true ∧ ∃ c, chunk = some c ∧
        o = if (c.has_bitmap && vm.UseCompressedOops) = true then
            c.load_narrow_oop (vm.obj_adr slot)
          else c.load_oop (vm.obj_adr slot)))
    (h' : (f.is_heap_frame = false ∧ o' = vm.memory (vm.obj_adr slot)) ∨
      (f.is_heap_frame = true ∧ ∃ c, chunk = some c ∧
        o' = if (c.has_bitmap && vm.UseCompressedOops) = true then
            c.load_narrow_oop (vm.obj_adr slot)
          else c.load_oop (vm.obj_adr slot))) :
    o = o' := by
  rcases h with ⟨hf, ho⟩ | ⟨hf, c, hc, ho⟩
  · rcases h' with ⟨_, ho'⟩ | ⟨hf', _⟩
    · rw [ho, ho']
    · rw [hf] at hf'; cases hf'
  · rcases h' with ⟨hf', _⟩ | ⟨_, c', hc', ho'⟩
    · rw [hf] at hf'; cases hf'
    · rw [hc] at hc'
      cases hc'
      rw [ho, ho']

/-- C1. Scanned from an empty Fix-up Table, an interpreted frame and a compiled frame leave in
the table exactly the objects that own a monitor of the frame (for an interpreted frame: the
object stored in a monitor slot, read from the stack or decoded by the chunk of a heap frame;
for a compiled frame: the decoded owner of a non-eliminated monitor of a scope of the chain),
that are not null, that are not the object the thread is on monitorenter for, and whose header
is not "has a monitor with a non-anonymous owner"; the returned count is the size of the
table. The scan is one that runs to its end, and a compiled method without the `has_monitors`
flag has no monitor to scan: for it the scanner returns 0 at once. -/
theorem monitors_to_fix_table_exact (vm : VM) (thread : JavaThread) :
    (∀ (f : frame) (chunk : Option stackChunk),
      InterpretedFrame.scan_preconditions vm thread f chunk = true →
      ∃ n t, InterpretedFrame.monitors_to_fix vm thread f ∅ chunk = some (n, t) ∧
        (∀ o, o ∈ t ↔
          (∃ slot ∈ InterpretedFrame.monitor_slots vm f,
            (f.is_heap_frame = false ∧ o = vm.memory (vm.obj_adr slot)) ∨
            (f.is_heap_frame = true ∧ ∃ c, chunk = some c ∧
              o = if (c.has_bitmap && vm.UseCompressedOops) = true then
                  c.load_narrow_oop (vm.obj_adr slot)
                else c.load_oop (vm.obj_adr slot))) ∧
          o ≠ nullptr ∧
          ¬ (thread.is_on_monitorenter = true ∧ o = thread._Stalled.object) ∧
          ¬ ((vm.mark o).has_monitor = true ∧
              (vm.mark o).monitor.is_owner_anonymous = false)) ∧
        n = t.number_of_entries) ∧
    (∀ (map : RegisterMapT) (f : frame) (cb : CodeBlob) (cm : CompiledMethod),
      f.cb = some cb → cb.as_compiled_method = some cm →
      CompiledFrame.scan_preconditions vm thread map f cm = true →
      (cm.has_monitors = false →
        CompiledFrame.monitor_owners vm map f (cm.scope_desc_at f.pc) = []) →
      ∃ n t, CompiledFrame.monitors_to_fix vm thread map f ∅ = some (n, t) ∧
        (∀ o, o ∈ t ↔
          (∃ scope ∈ cm.scope_desc_at f.pc, ∃ mons, scope.monitors = some mons ∧
            ∃ mon ∈ mons, mon.eliminated = false ∧
              vm.create_stack_value f map mon.owner = o) ∧
          o ≠ nullptr ∧
          ¬ (thread.is_on_monitorenter = true ∧ o = thread._Stalled.object) ∧
          ¬ ((vm.mark o).has_monitor = true ∧
              (vm.mark o).monitor.is_owner_anonymous = false)) ∧
        n = t.number_of_entries) ∧
    (∀ (map : RegisterMapT) (f : frame) (cb : CodeBlob) (cm : CompiledMethod),
      f.cb = some cb → cb.as_compiled_method = some cm →
      CompiledFrame.scan_preconditions vm thread map f cm = true →
      cm.has_monitors = false →
      CompiledFrame.monitors_to_fix vm thread map f ∅ = some (0, ∅)) := by
  have acquiring_iff : ∀ o : oop, o ≠ nullptr →
      (o ≠ monitorenter_oop thread ↔
        ¬ (thread.is_on_monitorenter = true ∧ o = thread._Stalled.object)) := by
    intro o ho
    unfold monitorenter_oop
    cases thread.is_on_monitorenter with
    | false => simp [ho]
    | true => simp
  have load_owner_reads : ∀ (f : frame) (chunk : Option stackChunk) (slot : intptr) (o : oop),
      InterpretedFrame.load_owner vm f chunk slot = some o →
      (f.is_heap_frame = false ∧ o = vm.memory (vm.obj_adr slot)) ∨
      (f.is_heap_frame = true ∧ ∃ c, chunk = some c ∧
        o = if (c.has_bitmap && vm.UseCompressedOops) = true then
            c.load_narrow_oop (vm.obj_adr slot)
          else c.load_oop (vm.obj_adr slot)) := by
    intro f chunk slot o h
    unfold InterpretedFrame.load_owner at h
    cases hh : f.is_heap_frame with
    | false =>
      simp only [hh, Bool.false_eq_true, if_false, Option.bind_eq_bind, Option.some_bind,
        Option.pure_def] at h
      exact Or.inl ⟨rfl, assert_bind_some _ _ _ h⟩
    | true =>
      cases chunk with
      | none => simp [hh] at h
      | some c =>
        simp only [hh, if_true, Option.bind_eq_bind, Option.some_bind, Option.pure_def] at h
        exact Or.inr ⟨rfl, c, rfl, assert_bind_some _ _ _ h⟩
  have hacq : ∀ o : oop,
      (o ≠ nullptr ∧ o ≠ monitorenter_oop thread ∧
        ¬ ((vm.mark o).has_monitor = true ∧
          (vm.mark o).monitor.is_owner_anonymous = false)) ↔
      (o ≠ nullptr ∧
        ¬ (thread.is_on_monitorenter = true ∧ o = thread._Stalled.object) ∧
        ¬ ((vm.mark o).has_monitor = true ∧
          (vm.mark o).monitor.is_owner_anonymous = false)) := by
    intro o
    constructor
    · rintro ⟨h1, h2, h3⟩
      exact ⟨h1, (acquiring_iff o h1).mp h2, h3⟩
    · rintro ⟨h1, h2, h3⟩
      exact ⟨h1, (acquiring_iff o h1).mpr h2, h3⟩
  refine ⟨?_, ?_, ?_⟩
  · intro f chunk hpre
    have hok : ∀ slot ∈ InterpretedFrame.monitor_slots vm f,
        ∃ o', InterpretedFrame.load_owner vm f chunk slot = some o' := by
      intro slot hslot
      unfold InterpretedFrame.scan_preconditions at hpre
      simp only [Bool.and_eq_true] at hpre
      obtain ⟨o', ho', _⟩ := (views_ok_iff vm thread _ _ _).mp hpre.2
        (InterpretedFrame.load_owner vm f chunk slot)
        (List.mem_map.mpr ⟨slot, hslot, rfl⟩)
      exact ⟨o', ho'⟩
    refine ⟨_, _, interp_scan_ok vm thread f ∅ chunk hpre, ?_, ?_⟩
    · intro o
      rw [scan_pure_mem, needs_fixup_iff, mem_monitor_views_iff, hacq]
      simp only [Finmap.not_mem_empty, false_or]
      constructor
      · rintro ⟨⟨slot, hslot, hl⟩, hrest⟩
        exact ⟨⟨slot, hslot, load_owner_reads f chunk slot o hl⟩, hrest⟩
      · rintro ⟨⟨slot, hslot, hl⟩, hrest⟩
        obtain ⟨o', ho'⟩ := hok slot hslot
        have := slot_owner_unique vm f chunk slot o o' hl
          (load_owner_reads f chunk slot o' ho')
        rw [this]
        rw [this] at hrest
        exact ⟨⟨slot, hslot, ho'⟩, hrest⟩
    · have h := scan_pure_count vm (monitorenter_oop thread)
        (InterpretedFrame.monitor_views vm f chunk) (0, ∅)
      simp only [Table.number_of_entries, Finmap.keys_empty, Finset.card_empty] at h ⊢
      omega
  · intro map f cb cm hcb hcm hpre hflag
    have hs := compiled_scan_ok vm thread map f ∅ cb cm hcb hcm hpre
    by_cases hm : cm.has_monitors = true
    · rw [if_pos hm] at hs
      refine ⟨_, _, hs, ?_, ?_⟩
      · intro o
        rw [← hacq, ← mem_monitor_owners_iff, ← needs_fixup_iff, scan_pure_mem]
        simp [Finmap.not_mem_empty]
      · have h := scan_pure_count vm (monitorenter_oop thread)
          ((CompiledFrame.monitor_owners vm map f (cm.scope_desc_at f.pc)).map some) (0, ∅)
        simp only [Table.number_of_entries, Finmap.keys_empty, Finset.card_empty] at h ⊢
        omega
    · rw [if_neg hm] at hs
      have hm2 : cm.has_monitors = false := by simpa using hm
      refine ⟨0, ∅, hs, ?_, ?_⟩
      · intro o
        rw [← mem_monitor_owners_iff, hflag hm2]
        simp [Finmap.not_mem_empty]
      · simp [Table.number_of_entries]
  · intro map f cb cm hcb hcm hpre hm
    unfold CompiledFrame.scan_preconditions at hpre
    simp only [Bool.and_eq_true] at hpre
    obtain ⟨⟨⟨h1, h2⟩, h3⟩, _⟩ := hpre
    unfold CompiledFrame.monitors_to_fix
    simp only [hcb, hcm, hm, h1, h2, h3, vm_assert, Option.bind_eq_bind, Option.some_bind,
      Option.pure_def, Bool.not_false, if_true]

theorem monitors_to_fix_table_exact_witness :
    (∃ n t, InterpretedFrame.monitors_to_fix vm0 thread0 (interpreted_frame 100 94) ∅ none =
        some (n, t) ∧ (7 : oop) ∈ t ∧ n = t.number_of_entries) ∧
    (∃ n t, InterpretedFrame.monitors_to_fix vm0 thread_entering7 (interpreted_frame 100 94)
        ∅ none = some (n, t) ∧ (7 : oop) ∉ t ∧ (8 : oop) ∈ t ∧ n = t.number_of_entries) ∧
    (∃ n t, CompiledFrame.monitors_to_fix vm0 thread_entering7 0
        (compiled_frame (code_blob (compiled_method true scopes_7_8_elim6))) ∅ =
        some (n, t) ∧ (7 : oop) ∉ t ∧ (8 : oop) ∈ t ∧ n = t.number_of_entries) ∧
    CompiledFrame.monitors_to_fix vm0 thread0 0
        (compiled_frame (code_blob (compiled_method false []))) ∅ = some (0, ∅) := by
  refine ⟨?_, ?_, ?_, ?_⟩
  · obtain ⟨n, t, h, hmem, hn⟩ :=
      (monitors_to_fix_table_exact vm0 thread0).1 (interpreted_frame 100 94) none (by decide)
    exact ⟨n, t, h, (hmem 7).mpr ⟨⟨98, by decide, Or.inl ⟨rfl, by decide⟩⟩, by decide,
      by decide, by decide⟩, hn⟩
  · obtain ⟨n, t, h, hmem, hn⟩ :=
      (monitors_to_fix_table_exact vm0 thread_entering7).1 (interpreted_frame 100 94) none
        (by decide)
    refine ⟨n, t, h, ?_, ?_, hn⟩
    · intro h7
      exact ((hmem 7).mp h7).2.2.1 ⟨rfl, rfl⟩
    · exact (hmem 8).mpr ⟨⟨96, by decide, Or.inl ⟨rfl, by decide⟩⟩, by decide, by decide,
        by decide⟩
  · obtain ⟨n, t, h, hmem, hn⟩ :=
      (monitors_to_fix_table_exact vm0 thread_entering7).2.1 0
        (compiled_frame (code_blob (compiled_method true scopes_7_8_elim6)))
        (code_blob (compiled_method true scopes_7_8_elim6))
        (compiled_method true scopes_7_8_elim6) rfl rfl (by decide) (by decide)
    refine ⟨n, t, h, ?_, ?_, hn⟩
    · intro h7
      exact ((hmem 7).mp h7).2.2.1 ⟨rfl, rfl⟩
    · exact (hmem 8).mpr ⟨⟨⟨some [⟨8, false⟩]⟩, by decide, [⟨8, false⟩], rfl, ⟨8, false⟩,
        by decide, rfl, rfl⟩, by decide, by decide, by decide⟩
  · exact (monitors_to_fix_table_exact vm0 thread0).2.2 0
      (compiled_frame (code_blob (compiled_method false [])))
      (code_blob (compiled_method false [])) (compiled_method false []) rfl rfl (by decide) rfl

/-- C2 fails as stated: an object in the anonymous-owner state that is not in the table before
the scan is in the table after it, for each of the three scanners. -/
theorem anonymous_owner_is_recorded :
    (vm0.mark 9).has_monitor = true ∧ (vm0.mark 9).monitor.is_owner_anonymous = true ∧
    (9 : oop) ∉ (∅ : Table) ∧
    InterpretedFrame.monitors_to_fix vm0 thread0 (interpreted_frame 200 198) ∅ none =
      some (1, Finmap.singleton 9 true) ∧
    CompiledFrame.monitors_to_fix vm0 thread0 0
      (compiled_frame (code_blob (compiled_method true [⟨some [⟨9, false⟩]⟩]))) ∅ =
      some (1, Finmap.singleton 9 true) ∧
    NativeFrame.monitors_to_fix vm0 thread0 (native_frame true 9 60) ∅ =
      some (1, Finmap.singleton 9 true) ∧
    (9 : oop) ∈ (Finmap.singleton 9 true : Table) := by
  decide

/-- C2, amended. For each of the three scanners, an object whose lock is inflated with a
concrete owner (its header has a monitor and the owner of that monitor is not anonymous)
and that is not in the table before is not in the table after, however many times the frame
is scanned. -/
theorem concrete_owner_never_recorded (vm : VM) (thread : JavaThread) (o : oop)
    (hm : (vm.mark o).has_monitor = true)
    (ha : (vm.mark o).monitor.is_owner_anonymous = false)
    (table : Table) (ho : o ∉ table) (k : Nat) :
    (∀ (f : frame) (chunk : Option stackChunk) (r : Nat × Table),
      rescan (fun tb => InterpretedFrame.monitors_to_fix vm thread f tb chunk) k table = some r →
      o ∉ r.2) ∧
    (∀ (map : RegisterMapT) (f : frame) (r : Nat × Table),
      rescan (fun tb => CompiledFrame.monitors_to_fix vm thread map f tb) k table = some r →
      o ∉ r.2) ∧
    (∀ (f : frame) (r : Nat × Table),
      rescan (fun tb => NativeFrame.monitors_to_fix vm thread f tb) k table = some r →
      o ∉ r.2) := by
  have hn : needs_fixup vm (monitorenter_oop thread) o = false := by
    simp [needs_fixup, hm, ha]
  have key : ∀ scan : Table → Option (Nat × Table),
      (∀ tb r, scan tb = some r → ∃ vs, r = scan_pure vm (monitorenter_oop thread) vs (0, tb)) →
      ∀ r, rescan scan k table = some r → o ∉ r.2 := by
    intro scan hscan r hr
    obtain ⟨vs, rfl⟩ := rescan_sound vm (monitorenter_oop thread) scan hscan k table r hr
    rw [scan_pure_mem]
    simp [ho, hn]
  refine ⟨?_, ?_, ?_⟩
  · intro f chunk
    exact key _ fun tb r h => interp_scan_sound vm thread f tb chunk r h
  · intro map f
    exact key _ fun tb r h => compiled_scan_sound vm thread map f tb r h
  · intro f
    refine key _ fun tb r h => ?_
    rcases native_scan_sound vm thread f tb r h with h1 | ⟨_, h1⟩
    · exact ⟨[], by simpa [scan_pure] using h1⟩
    · exact ⟨_, h1⟩

theorem concrete_owner_never_recorded_witness :
    (vm0.mark 5).has_monitor = true ∧ (vm0.mark 5).monitor.is_owner_anonymous = false ∧
    (5 : oop) ∉ (∅ : Table) ∧
    rescan (fun tb => InterpretedFrame.monitors_to_fix vm0 thread0 (interpreted_frame 300 294)
      tb none) 2 ∅ = some (1, Finmap.singleton 8 true) ∧
    (5 : oop) ∉ (Finmap.singleton 8 true : Table) :=
  ⟨by decide, by decide, by decide, by decide,
    (concrete_owner_never_recorded vm0 thread0 5 (by decide) (by decide) ∅ (by decide) 2).1
      (interpreted_frame 300 294) none (1, Finmap.singleton 8 true) (by decide)⟩

/-- C3. Deduplication by object identity. Adding to an interpreted or to a compiled frame a
further monitor entry whose owner already occurs in another (non-eliminated) entry of the
frame changes neither the returned count nor the resulting table; and a frame whose
monitors all hold one object that requires a fix-up, scanned from an empty table, yields the
count 1 and the table of that object alone (for a scan that runs to its end; a compiled
method without the `has_monitors` flag has no monitor to scan). -/
theorem monitor_dedup (vm : VM) (thread : JavaThread) :
    (∀ (f f' : frame) (chunk : Option stackChunk) (table : Table)
        (l₁ l₂ : List (Option oop)) (x : Option oop),
      f'.is_heap_frame = f.is_heap_frame →
      InterpretedFrame.monitor_views vm f chunk = l₁ ++ l₂ →
      InterpretedFrame.monitor_views vm f' chunk = l₁ ++ x :: l₂ →
      x ∈ l₁ ++ l₂ →
      InterpretedFrame.monitors_to_fix vm thread f' table chunk =
        InterpretedFrame.monitors_to_fix vm thread f table chunk) ∧
    (∀ (map : RegisterMapT) (f : frame) (cb : CodeBlob) (cm : CompiledMethod) (table : Table)
        (scopes' : List ScopeDesc) (l₁ l₂ : List oop) (x : oop),
      f.cb = some cb → cb.as_compiled_method = some cm →
      CompiledFrame.monitor_owners vm map f (cm.scope_desc_at f.pc) = l₁ ++ l₂ →
      CompiledFrame.monitor_owners vm map (f.with_scopes scopes') scopes' = l₁ ++ x :: l₂ →
      x ∈ l₁ ++ l₂ →
      CompiledFrame.monitors_to_fix vm thread map (f.with_scopes scopes') table =
        CompiledFrame.monitors_to_fix vm thread map f table) ∧
    (∀ (f : frame) (chunk : Option stackChunk) (o : oop),
      InterpretedFrame.scan_preconditions vm thread f chunk = true →
      o ≠ nullptr → o ≠ monitorenter_oop thread →
      ¬ ((vm.mark o).has_monitor = true ∧ (vm.mark o).monitor.is_owner_anonymous = false) →
      InterpretedFrame.monitor_slots vm f ≠ [] →
      (∀ slot ∈ InterpretedFrame.monitor_slots vm f,
        InterpretedFrame.load_owner vm f chunk slot = some o) →
      InterpretedFrame.monitors_to_fix vm thread f ∅ chunk =
        some (1, Finmap.singleton o true)) ∧
    (∀ (map : RegisterMapT) (f : frame) (cb : CodeBlob) (cm : CompiledMethod) (o : oop),
      f.cb = some cb → cb.as_compiled_method = some cm →
      CompiledFrame.scan_preconditions vm thread map f cm = true →
      (cm.has_monitors = false →
        CompiledFrame.monitor_owners vm map f (cm.scope_desc_at f.pc) = []) →
      o ≠ nullptr → o ≠ monitorenter_oop thread →
      ¬ ((vm.mark o).has_monitor = true ∧ (vm.mark o).monitor.is_owner_anonymous = false) →
      CompiledFrame.monitor_owners vm map f (cm.scope_desc_at f.pc) ≠ [] →
      (∀ o' ∈ CompiledFrame.monitor_owners vm map f (cm.scope_desc_at f.pc), o' = o) →
      CompiledFrame.monitors_to_fix vm thread map f ∅ = some (1, Finmap.singleton o true)) := by
  refine ⟨?_, ?_, ?_, ?_⟩
  · intro f f' chunk table l₁ l₂ x hheap hv hv' hx
    obtain ⟨hle, hsz⟩ := interp_views_nonempty vm f chunk
      (by rw [hv]; exact List.ne_nil_of_mem hx)
    obtain ⟨hle', _⟩ := interp_views_nonempty vm f' chunk (by rw [hv']; simp)
    rw [interp_scan_eq vm thread f' table chunk hle' hsz,
      interp_scan_eq vm thread f table chunk hle hsz, hv, hv', hheap]
    exact scan_views_congr vm thread _ _ _ _ _ (mem_insert_dup l₁ l₂ x hx)
  · intro map f cb cm table scopes' l₁ l₂ x hcb hcm hv hv' hx
    have hcb' : (f.with_scopes scopes').cb =
        some { cb with as_compiled_method := some { cm with scope_desc_at := fun _ => scopes' } } := by
      simp [frame.with_scopes, hcb, hcm]
    rw [compiled_scan_eq vm thread map (f.with_scopes scopes') table _ _ hcb' rfl,
      compiled_scan_eq vm thread map f table cb cm hcb hcm, hv]
    simp only [hv']
    have hs : scan_views vm thread (f.with_scopes scopes').is_heap_frame (monitorenter_oop thread)
        ((l₁ ++ x :: l₂).map some) (0, table) =
        scan_views vm thread f.is_heap_frame (monitorenter_oop thread)
          ((l₁ ++ l₂).map some) (0, table) := by
      apply scan_views_congr
      intro v
      simp only [List.mem_map, mem_insert_dup l₁ l₂ x hx]
    rw [hs]
    rfl
  · intro f chunk o hpre h1 h2 h3 hne hall
    rw [interp_scan_ok vm thread f ∅ chunk hpre]
    have hn := (needs_fixup_iff vm (monitorenter_oop thread) o).mpr ⟨h1, h2, h3⟩
    congr 1
    apply scan_pure_single vm _ _ o hn
    · obtain ⟨slot, hslot⟩ := List.exists_mem_of_ne_nil _ hne
      exact (mem_monitor_views_iff vm f chunk o).mpr ⟨slot, hslot, hall slot hslot⟩
    · intro o' ho'
      obtain ⟨slot, hslot, hl⟩ := (mem_monitor_views_iff vm f chunk o').mp ho'
      rw [hall slot hslot] at hl
      exact (Option.some.inj hl).symm
  · intro map f cb cm o hcb hcm hpre hflag h1 h2 h3 hne hall
    have hmon : cm.has_monitors = true := by
      cases hm : cm.has_monitors with
      | true => rfl
      | false => exact absurd (hflag hm) hne
    rw [compiled_scan_ok vm thread map f ∅ cb cm hcb hcm hpre, if_pos hmon]
    have hn := (needs_fixup_iff vm (monitorenter_oop thread) o).mpr ⟨h1, h2, h3⟩
    congr 1
    apply scan_pure_single vm _ _ o hn
    · obtain ⟨o', ho'⟩ := List.exists_mem_of_ne_nil _ hne
      exact List.mem_map.mpr ⟨o', ho', by rw [hall o' ho']⟩
    · intro o' ho'
      obtain ⟨o'', ho'', he⟩ := List.mem_map.mp ho'
      rw [← Option.some.inj he]
      exact hall o'' ho''

theorem monitor_dedup_witness :
    InterpretedFrame.monitors_to_fix vm0 thread0 (interpreted_frame 100 94) ∅ none =
      InterpretedFrame.monitors_to_fix vm0 thread0 (interpreted_frame 100 96) ∅ none ∧
    CompiledFrame.monitors_to_fix vm0 thread0 0
        ((compiled_frame (code_blob (compiled_method true [⟨some [⟨7, false⟩]⟩]))).with_scopes
          [⟨some [⟨7, false⟩, ⟨7, false⟩]⟩]) ∅ =
      CompiledFrame.monitors_to_fix vm0 thread0 0
        (compiled_frame (code_blob (compiled_method true [⟨some [⟨7, false⟩]⟩]))) ∅ ∧
    InterpretedFrame.monitors_to_fix vm0 thread0 (interpreted_frame 400 396) ∅ none =
      some (1, Finmap.singleton 7 true) ∧
    CompiledFrame.monitors_to_fix vm0 thread0 0
        (compiled_frame (code_blob (compiled_method true [⟨some [⟨7, false⟩, ⟨7, false⟩]⟩])))
        ∅ = some (1, Finmap.singleton 7 true) :=
  ⟨(monitor_dedup vm0 thread0).1 (interpreted_frame 100 96) (interpreted_frame 100 94) none ∅
      [some 7, some 8] [] (some 7) rfl (by decide) (by decide) (by decide),
    (monitor_dedup vm0 thread0).2.1 0
      (compiled_frame (code_blob (compiled_method true [⟨some [⟨7, false⟩]⟩])))
      (code_blob (compiled_method true [⟨some [⟨7, false⟩]⟩]))
      (compiled_method true [⟨some [⟨7, false⟩]⟩]) ∅ [⟨some [⟨7, false⟩, ⟨7, false⟩]⟩]
      [7] [] 7 rfl rfl (by decide) (by decide) (by decide),
    (monitor_dedup vm0 thread0).2.2.1 (interpreted_frame 400 396) none 7 (by decide)
      (by decide) (by decide) (by decide) (by decide) (by decide),
    (monitor_dedup vm0 thread0).2.2.2 0
      (compiled_frame (code_blob (compiled_method true [⟨some [⟨7, false⟩, ⟨7, false⟩]⟩])))
      (code_blob (compiled_method true [⟨some [⟨7, false⟩, ⟨7, false⟩]⟩]))
      (compiled_method true [⟨some [⟨7, false⟩, ⟨7, false⟩]⟩]) 7 rfl rfl (by decide)
      (by decide) (by decide) (by decide) (by decide) (by decide) (by decide)⟩

/-- C4. Eliminated locks are never inserted and never counted. The compiled scanner returns
the same count and the same table as on the frame obtained by deleting every eliminated
`MonitorValue` from every scope (the owners being decoded alike in both frames); an object
that is the owner of eliminated monitors only is not added to the table; and a frame with two
distinct held locks that require a fix-up plus one eliminated lock, scanned from an empty
table, yields the count 2 and the table of the two (for a scan that runs to its end; a
compiled method without the `has_monitors` flag has no monitor to scan). -/
theorem eliminated_monitors_ignored (vm : VM) (thread : JavaThread) :
    (∀ (map : RegisterMapT) (f : frame) (table : Table),
      (∀ ov, vm.create_stack_value f.delete_eliminated map ov =
        vm.create_stack_value f map ov) →
      CompiledFrame.monitors_to_fix vm thread map f.delete_eliminated table =
        CompiledFrame.monitors_to_fix vm thread map f table) ∧
    (∀ (map : RegisterMapT) (f : frame) (cb : CodeBlob) (cm : CompiledMethod) (table : Table)
        (n : Nat) (t : Table) (o : oop),
      f.cb = some cb → cb.as_compiled_method = some cm →
      CompiledFrame.monitors_to_fix vm thread map f table = some (n, t) →
      (∀ scope ∈ cm.scope_desc_at f.pc, ∀ mons, scope.monitors = some mons →
        ∀ mon ∈ mons, vm.create_stack_value f map mon.owner = o → mon.eliminated = true) →
      (o ∈ t ↔ o ∈ table)) ∧
    (∀ (map : RegisterMapT) (f : frame) (cb : CodeBlob) (cm : CompiledMethod)
        (m₁ m₂ e : MonitorValue),
      f.cb = some cb → cb.as_compiled_method = some cm →
      CompiledFrame.scan_preconditions vm thread map f cm = true →
      (cm.has_monitors = false →
        CompiledFrame.monitor_owners vm map f (cm.scope_desc_at f.pc) = []) →
      (CompiledFrame.chain_monitors (cm.scope_desc_at f.pc)).Perm [m₁, m₂, e] →
      m₁.eliminated = false → m₂.eliminated = false → e.eliminated = true →
      vm.create_stack_value f map m₁.owner ≠ vm.create_stack_value f map m₂.owner →
      needs_fixup vm (monitorenter_oop thread) (vm.create_stack_value f map m₁.owner) = true →
      needs_fixup vm (monitorenter_oop thread) (vm.create_stack_value f map m₂.owner) = true →
      ∃ t, CompiledFrame.monitors_to_fix vm thread map f ∅ = some (2, t) ∧
        ∀ o, o ∈ t ↔ o = vm.create_stack_value f map m₁.owner ∨
          o = vm.create_stack_value f map m₂.owner) := by
  refine ⟨?_, ?_, ?_⟩
  · intro map f table hdec
    cases hcb : f.cb with
    | none => simp [CompiledFrame.monitors_to_fix, frame.delete_eliminated, hcb]
    | some cb =>
      cases hcm : cb.as_compiled_method with
      | none => simp [CompiledFrame.monitors_to_fix, frame.delete_eliminated, hcb, hcm]
      | some cm =>
        have hcb' : f.delete_eliminated.cb =
            some { cb with as_compiled_method := some cm.delete_eliminated } := by
          simp [frame.delete_eliminated, hcb, hcm]
        rw [compiled_scan_eq vm thread map f.delete_eliminated table _ _ hcb' rfl,
          compiled_scan_eq vm thread map f table cb cm hcb hcm]
        have ho : CompiledFrame.monitor_owners vm map f.delete_eliminated
            (cm.delete_eliminated.scope_desc_at f.delete_eliminated.pc) =
            CompiledFrame.monitor_owners vm map f (cm.scope_desc_at f.pc) :=
          monitor_owners_delete_eliminated vm map f f.delete_eliminated _ hdec
        rw [ho]
        rfl
  · intro map f cb cm table n t o hcb hcm hres helim
    have hnot : o ∉ CompiledFrame.monitor_owners vm map f (cm.scope_desc_at f.pc) := by
      rw [mem_monitor_owners_iff]
      rintro ⟨scope, hs, mons, hm, mon, hmon, he, hd⟩
      rw [helim scope hs mons hm mon hmon hd] at he
      cases he
    rw [compiled_scan_eq vm thread map f table cb cm hcb hcm] at hres
    split at hres
    · split at hres
      · rw [scan_views_eq] at hres
        split at hres
        · have ht : t = (scan_pure vm (monitorenter_oop thread)
              ((CompiledFrame.monitor_owners vm map f (cm.scope_desc_at f.pc)).map some)
              (0, table)).2 := by
            rw [Option.some.inj hres]
          rw [ht, scan_pure_mem]
          simp [hnot]
        · cases hres
      · have ht : t = table := by
          have := Option.some.inj hres
          exact (congrArg Prod.snd this).symm
        rw [ht]
    · cases hres
  · intro map f cb cm m₁ m₂ e hcb hcm hpre hflag hperm h1 h2 he hne hn₁ hn₂
    have hmem : ∀ o, some o ∈ (CompiledFrame.monitor_owners vm map f
        (cm.scope_desc_at f.pc)).map some ↔
        o = vm.create_stack_value f map m₁.owner ∨ o = vm.create_stack_value f map m₂.owner := by
      intro o
      unfold CompiledFrame.monitor_owners
      simp only [List.mem_map, List.mem_filter, Option.some.injEq, exists_eq_right,
        hperm.mem_iff, List.mem_cons, List.mem_singleton, Bool.not_eq_true',
        List.not_mem_nil, or_false]
      constructor
      · rintro ⟨mon, ⟨rfl | rfl | rfl, hel⟩, rfl⟩
        · exact Or.inl rfl
        · exact Or.inr rfl
        · rw [he] at hel; cases hel
      · rintro (rfl | rfl)
        · exact ⟨m₁, ⟨Or.inl rfl, h1⟩, rfl⟩
        · exact ⟨m₂, ⟨Or.inr (Or.inl rfl), h2⟩, rfl⟩
    have hmon : cm.has_monitors = true := by
      cases hm : cm.has_monitors with
      | true => rfl
      | false =>
        have h0 := (hmem (vm.create_stack_value f map m₁.owner)).mpr (Or.inl rfl)
        rw [hflag hm] at h0
        simp at h0
    rw [compiled_scan_ok vm thread map f ∅ cb cm hcb hcm hpre, if_pos hmon]
    obtain ⟨hc, ht⟩ := scan_pure_pair vm (monitorenter_oop thread) _ _ _ hne hn₁ hn₂ hmem
    refine ⟨_, ?_, ht⟩
    rw [← hc]

theorem eliminated_monitors_ignored_witness :
    CompiledFrame.monitors_to_fix vm0 thread0 0
        (compiled_frame (code_blob (compiled_method true scopes_7_8_elim6))).delete_eliminated
        ∅ =
      CompiledFrame.monitors_to_fix vm0 thread0 0
        (compiled_frame (code_blob (compiled_method true scopes_7_8_elim6))) ∅ ∧
    ((6 : oop) ∈ (Finmap.singleton 7 true : Table).insert 8 true ↔ (6 : oop) ∈ (∅ : Table)) ∧
    (∃ t, CompiledFrame.monitors_to_fix vm0 thread0 0
        (compiled_frame (code_blob (compiled_method true scopes_7_8_elim6))) ∅ = some (2, t) ∧
      ∀ o, o ∈ t ↔ o = 7 ∨ o = 8) :=
  ⟨(eliminated_monitors_ignored vm0 thread0).1 0
      (compiled_frame (code_blob (compiled_method true scopes_7_8_elim6))) ∅ (fun _ => rfl),
    (eliminated_monitors_ignored vm0 thread0).2.1 0
      (compiled_frame (code_blob (compiled_method true scopes_7_8_elim6)))
      (code_blob (compiled_method true scopes_7_8_elim6))
      (compiled_method true scopes_7_8_elim6) ∅ 2 ((Finmap.singleton 7 true).insert 8 true) 6
      rfl rfl (by decide) (by decide),
    (eliminated_monitors_ignored vm0 thread0).2.2 0
      (compiled_frame (code_blob (compiled_method true scopes_7_8_elim6)))
      (code_blob (compiled_method true scopes_7_8_elim6))
      (compiled_method true scopes_7_8_elim6) ⟨7, false⟩ ⟨8, false⟩ ⟨6, true⟩
      rfl rfl (by decide) (by decide) (by decide) rfl rfl rfl (by decide) (by decide)
      (by decide)⟩

/-- C5. Native being-acquired exclusion. For a synchronized native frame that is the topmost
Java frame of the thread while the thread is on monitorenter for the receiver of the frame,
the scanner can only return the count 0 with the table unchanged; and it does return that
when its assertions hold (the frame is a native frame, the receiver is not null and the
thread does not hold its lock yet). -/
theorem native_being_acquired (vm : VM) (thread : JavaThread) (f : frame) (table : Table)
    (cb : CodeBlob) (cm : CompiledMethod) (hcb : f.cb = some cb)
    (hcm : cb.as_compiled_method = some cm) (hsync : cm.method.is_synchronized = true)
    (htop : f.sp = thread.last_Java_sp) (hon : thread.is_on_monitorenter = true)
    (hobj : thread._Stalled.object = f.get_native_receiver) :
    (∀ r, NativeFrame.monitors_to_fix vm thread f table = some r → r = (0, table)) ∧
    (NativeFrame.is_instance f = true → f.get_native_receiver ≠ nullptr →
      vm.current_thread_holds_lock thread f.get_native_receiver = false →
      NativeFrame.monitors_to_fix vm thread f table = some (0, table)) := by
  constructor
  · intro r h
    rcases native_scan_sound vm thread f table r h with h1 | ⟨hn, _⟩
    · exact h1
    · have : needs_fixup vm (monitorenter_oop thread) f.get_native_receiver = false := by
        simp [needs_fixup, monitorenter_oop, hon, hobj]
      rw [this] at hn
      cases hn
  · intro hi hnn hnot
    have _ := hsync
    have hnn' : (f.get_native_receiver != nullptr) = true := by simpa using hnn
    simp [NativeFrame.monitors_to_fix, hcb, hcm, hsync, htop, hon, hobj, hi, hnot, vm_assert,
      monitorenter_oop, hnn']

theorem native_being_acquired_witness :
    NativeFrame.monitors_to_fix vm0 thread_entering7 (native_frame true 7 50) ∅ =
      some (0, ∅) :=
  (native_being_acquired vm0 thread_entering7 (native_frame true 7 50) ∅ _ _ rfl rfl rfl
    rfl rfl rfl).2 rfl (by decide) (by decide)

/-- C6. Native held-lock case. For a synchronized native frame that is not the topmost Java
frame of the thread, whose receiver lock the thread holds and is not acquiring, a scan from
the empty table returns the count 1 and the table of the receiver alone, unless the lock of
the receiver is inflated with a concrete owner (this thread): then it returns 0 and the table
stays empty. -/
theorem native_held_lock (vm : VM) (thread : JavaThread) (f : frame) (cb : CodeBlob)
    (cm : CompiledMethod) (hi : NativeFrame.is_instance f = true) (hcb : f.cb = some cb)
    (hcm : cb.as_compiled_method = some cm) (hsync : cm.method.is_synchronized = true)
    (hnot_top : f.sp ≠ thread.last_Java_sp)
    (hholds : vm.current_thread_holds_lock thread f.get_native_receiver = true)
    (hnn : f.get_native_receiver ≠ nullptr)
    (hacq : monitorenter_oop thread ≠ f.get_native_receiver) :
    (((vm.mark f.get_native_receiver).has_monitor = true ∧
        (vm.mark f.get_native_receiver).monitor.is_owner_anonymous = false) →
      (vm.mark f.get_native_receiver).monitor.is_owner thread = true →
      NativeFrame.monitors_to_fix vm thread f ∅ = some (0, ∅)) ∧
    (¬ ((vm.mark f.get_native_receiver).has_monitor = true ∧
        (vm.mark f.get_native_receiver).monitor.is_owner_anonymous = false) →
      f.is_heap_frame = false →
      NativeFrame.monitors_to_fix vm thread f ∅ =
        some (1, Finmap.singleton f.get_native_receiver true)) := by
  have hacq' : (monitorenter_oop thread == nullptr ||
      monitorenter_oop thread != f.get_native_receiver) = true := by
    simp [hacq]
  constructor
  · rintro ⟨h1, h2⟩ h3
    simp [NativeFrame.monitors_to_fix, hcb, hcm, hsync, hnot_top, hi, hholds, vm_assert,
      oop_mark, hnn, hacq', h1, h2, h3]
  · intro h1 h2
    have h4 : ((vm.mark f.get_native_receiver).has_monitor &&
        !(vm.mark f.get_native_receiver).monitor.is_owner_anonymous) = false := by
      cases hm : (vm.mark f.get_native_receiver).has_monitor <;>
        cases ha : (vm.mark f.get_native_receiver).monitor.is_owner_anonymous <;>
        simp_all
    have hempty : f.get_native_receiver ∉ (∅ : Table) := Finmap.not_mem_empty
    simp only [NativeFrame.monitors_to_fix, hcb, hcm, hsync, hnot_top, hi, hholds, vm_assert,
      oop_mark, hnn, hacq', h4, h2, Table.put_if_absent, hempty, Option.bind_eq_bind,
      Option.some_bind,
      if_true, if_false, Bool.not_true, Bool.not_false, decide_False, Bool.false_eq_true,
      Option.pure_def]
    rfl

theorem native_held_lock_witness :
    NativeFrame.monitors_to_fix vm0 thread0 (native_frame true 5 60) ∅ = some (0, ∅) ∧
    NativeFrame.monitors_to_fix vm0 thread0 (native_frame true 7 60) ∅ =
      some (1, Finmap.singleton 7 true) :=
  ⟨(native_held_lock vm0 thread0 (native_frame true 5 60) _ _ rfl rfl rfl rfl (by decide)
      (by decide) (by decide) (by decide)).1 (by decide) (by decide),
    (native_held_lock vm0 thread0 (native_frame true 7 60) _ _ rfl rfl rfl rfl (by decide)
      (by decide) (by decide) (by decide)).2 (by decide) (by decide)⟩

/-- C7. Null and being-acquired owners are skipped. Whatever an interpreted or a compiled scan
returns, the null reference and the object the thread is on monitorenter for are in the table
after the scan iff they were in it before, and the count is the number of objects the scan
added, so they are not counted. When the thread is not on monitorenter, a scan that runs to
its end records every non-null owner whose header is not "has a monitor with a non-anonymous
owner" (a compiled method without the `has_monitors` flag has no monitor to scan). -/
theorem acquiring_and_null_owners_skipped (vm : VM) (thread : JavaThread) :
    (∀ (f : frame) (chunk : Option stackChunk) (table : Table) (n : Nat) (t : Table),
      InterpretedFrame.monitors_to_fix vm thread f table chunk = some (n, t) →
      (nullptr ∈ t ↔ nullptr ∈ table) ∧
      (thread.is_on_monitorenter = true →
        (thread._Stalled.object ∈ t ↔ thread._Stalled.object ∈ table)) ∧
      n + table.number_of_entries = t.number_of_entries) ∧
    (∀ (map : RegisterMapT) (f : frame) (table : Table) (n : Nat) (t : Table),
      CompiledFrame.monitors_to_fix vm thread map f table = some (n, t) →
      (nullptr ∈ t ↔ nullptr ∈ table) ∧
      (thread.is_on_monitorenter = true →
        (thread._Stalled.object ∈ t ↔ thread._Stalled.object ∈ table)) ∧
      n + table.number_of_entries = t.number_of_entries) ∧
    (∀ (f : frame) (chunk : Option stackChunk) (table : Table),
      thread.is_on_monitorenter = false →
      InterpretedFrame.scan_preconditions vm thread f chunk = true →
      ∃ n t, InterpretedFrame.monitors_to_fix vm thread f table chunk = some (n, t) ∧
        ∀ o, o ≠ nullptr →
          (∃ slot ∈ InterpretedFrame.monitor_slots vm f,
            InterpretedFrame.load_owner vm f chunk slot = some o) →
          ¬ ((vm.mark o).has_monitor = true ∧
              (vm.mark o).monitor.is_owner_anonymous = false) →
          o ∈ t) ∧
    (∀ (map : RegisterMapT) (f : frame) (cb : CodeBlob) (cm : CompiledMethod) (table : Table),
      thread.is_on_monitorenter = false →
      f.cb = some cb → cb.as_compiled_method = some cm →
      CompiledFrame.scan_preconditions vm thread map f cm = true →
      (cm.has_monitors = false →
        CompiledFrame.monitor_owners vm map f (cm.scope_desc_at f.pc) = []) →
      ∃ n t, CompiledFrame.monitors_to_fix vm thread map f table = some (n, t) ∧
        ∀ o, o ≠ nullptr →
          (∃ scope ∈ cm.scope_desc_at f.pc, ∃ mons, scope.monitors = some mons ∧
            ∃ mon ∈ mons, mon.eliminated = false ∧
              vm.create_stack_value f map mon.owner = o) →
          ¬ ((vm.mark o).has_monitor = true ∧
              (vm.mark o).monitor.is_owner_anonymous = false) →
          o ∈ t) := by
  have key : ∀ (table : Table) (n : Nat) (t : Table),
      (∃ vs, (n, t) = scan_pure vm (monitorenter_oop thread) vs (0, table)) →
      (nullptr ∈ t ↔ nullptr ∈ table) ∧
      (thread.is_on_monitorenter = true →
        (thread._Stalled.object ∈ t ↔ thread._Stalled.object ∈ table)) ∧
      n + table.number_of_entries = t.number_of_entries := by
    rintro table n t ⟨vs, h⟩
    have ht : t = (scan_pure vm (monitorenter_oop thread) vs (0, table)).2 := by rw [← h]
    have hn : n = (scan_pure vm (monitorenter_oop thread) vs (0, table)).1 := by rw [← h]
    refine ⟨?_, ?_, ?_⟩
    · rw [ht, scan_pure_mem]
      simp [needs_fixup]
    · intro hon
      rw [ht, scan_pure_mem]
      simp [needs_fixup, monitorenter_oop, hon]
    · have hc := scan_pure_count vm (monitorenter_oop thread) vs (0, table)
      rw [ht, hn]
      simpa using hc
  have hme : thread.is_on_monitorenter = false → monitorenter_oop thread = nullptr := by
    intro h
    simp [monitorenter_oop, h]
  refine ⟨?_, ?_, ?_, ?_⟩
  · intro f chunk table n t h
    exact key table n t (interp_scan_sound vm thread f table chunk (n, t) h)
  · intro map f table n t h
    exact key table n t (compiled_scan_sound vm thread map f table (n, t) h)
  · intro f chunk table hoff hpre
    refine ⟨_, _, interp_scan_ok vm thread f table chunk hpre, ?_⟩
    intro o hnn hslot hmark
    rw [scan_pure_mem]
    refine Or.inr ⟨(mem_monitor_views_iff vm f chunk o).mpr hslot, ?_⟩
    rw [needs_fixup_iff, hme hoff]
    exact ⟨hnn, hnn, hmark⟩
  · intro map f cb cm table hoff hcb hcm hpre hflag
    have hs := compiled_scan_ok vm thread map f table cb cm hcb hcm hpre
    by_cases hmon : cm.has_monitors = true
    · rw [if_pos hmon] at hs
      refine ⟨_, _, hs, ?_⟩
      intro o hnn hslot hmark
      rw [scan_pure_mem]
      refine Or.inr
        ⟨List.mem_map.mpr ⟨o, (mem_monitor_owners_iff vm map f _ o).mpr hslot, rfl⟩, ?_⟩
      rw [needs_fixup_iff, hme hoff]
      exact ⟨hnn, hnn, hmark⟩
    · rw [if_neg hmon] at hs
      refine ⟨_, _, hs, ?_⟩
      intro o _ hslot _
      have hin := (mem_monitor_owners_iff vm map f _ o).mpr hslot
      rw [hflag (by simpa using hmon)] at hin
      simp at hin

theorem acquiring_and_null_owners_skipped_witness :
    InterpretedFrame.monitors_to_fix vm0 thread_entering7 (interpreted_frame 100 94) ∅ none =
      some (1, Finmap.singleton 8 true) ∧
    ((7 : oop) ∈ (Finmap.singleton 8 true : Table) ↔ (7 : oop) ∈ (∅ : Table)) ∧
    CompiledFrame.monitors_to_fix vm0 thread_entering7 0
      (compiled_frame (code_blob (compiled_method true scopes_7_8_elim6))) ∅ =
      some (1, Finmap.singleton 8 true) ∧
    (∃ n t, InterpretedFrame.monitors_to_fix vm0 thread0 (interpreted_frame 100 94) ∅ none =
      some (n, t) ∧ (7 : oop) ∈ t) ∧
    (∃ n t, CompiledFrame.monitors_to_fix vm0 thread0 0
      (compiled_frame (code_blob (compiled_method true scopes_7_8_elim6))) ∅ =
      some (n, t) ∧ (7 : oop) ∈ t) := by
  refine ⟨by decide, ?_, by decide, ?_, ?_⟩
  · exact ((acquiring_and_null_owners_skipped vm0 thread_entering7).1
      (interpreted_frame 100 94) none ∅ 1 (Finmap.singleton 8 true) (by decide)).2.1 rfl
  · obtain ⟨n, t, h, ht⟩ := (acquiring_and_null_owners_skipped vm0 thread0).2.2.1
      (interpreted_frame 100 94) none ∅ rfl (by decide)
    exact ⟨n, t, h, ht 7 (by decide) ⟨98, by decide, by decide⟩ (by decide)⟩
  · obtain ⟨n, t, h, ht⟩ := (acquiring_and_null_owners_skipped vm0 thread0).2.2.2 0
      (compiled_frame (code_blob (compiled_method true scopes_7_8_elim6)))
      (code_blob (compiled_method true scopes_7_8_elim6))
      (compiled_method true scopes_7_8_elim6) ∅ rfl rfl rfl (by decide) (by decide)
    exact ⟨n, t, h, ht 7 (by decide)
      ⟨⟨some [⟨7, false⟩, ⟨6, true⟩]⟩, by decide, [⟨7, false⟩, ⟨6, true⟩], rfl, ⟨7, false⟩,
        by decide, rfl, rfl⟩ (by decide)⟩

/-- C8. Return-address round trip: reading a slot right after patching it returns the address
written, and so do `Frame::return_pc` and `InterpretedFrame::return_pc` after the slot at
their `return_pc_address(f)` was patched. -/
theorem return_address_round_trip (vm : VM) (sp : intptr) (pc : address) (f : frame) :
    return_address_at (patch_return_address_at vm sp pc) sp = pc ∧
    Frame.return_pc (patch_return_address_at vm (vm.Frame_return_pc_address f) pc) f = pc ∧
    InterpretedFrame.return_pc
      (patch_return_address_at vm (vm.InterpretedFrame_return_pc_address f) pc) f = pc := by
  simp [return_address_at, patch_return_address_at, Frame.return_pc, InterpretedFrame.return_pc]

/-- C9. Argument-area overlap law: against a non-interpreted callee the top of the caller is
the top against an interpreted callee plus exactly the callee's argument size, and against an
interpreted callee it is the one-argument `frame_top`, the unextended sp, whatever the
argument size. -/
theorem frame_top_overlap_law (C : frame) (a : Int) :
    NonInterpretedFrame.frame_top_callee C a false =
      NonInterpretedFrame.frame_top_callee C 0 true + a ∧
    NonInterpretedFrame.frame_top_callee C a true = NonInterpretedFrame.frame_top C ∧
    NonInterpretedFrame.frame_top C = C.unextended_sp ∧
    NonInterpretedFrame.frame_top_callee C a false -
      NonInterpretedFrame.frame_top_callee C a true = a := by
  simp [NonInterpretedFrame.frame_top_callee, NonInterpretedFrame.frame_top]

/-- C12. `NonInterpretedUnknownFrame::is_instance(f)` is true iff
`InterpretedFrame::is_instance(f)` is false. -/
theorem non_interpreted_unknown_iff (f : frame) :
    NonInterpretedUnknownFrame.is_instance f = true ↔ InterpretedFrame.is_instance f = false := by
  simp [NonInterpretedUnknownFrame.is_instance, InterpretedFrame.is_instance]

/-- C13. `StubFrame::is_instance(f)` is true iff `f` is not an interpreted frame and its code
object is present and flagged as a runtime stub; it is false (a plain boolean, no failure) for
a non-interpreted frame without code object, and it is never true together with
`InterpretedFrame::is_instance(f)`. -/
theorem stub_is_instance_iff (f : frame) :
    (StubFrame.is_instance f = true ↔
      f.is_interpreted_frame = false ∧ ∃ cb, f.cb = some cb ∧ cb.is_runtime_stub = true) ∧
    (f.is_interpreted_frame = false → f.cb = none → StubFrame.is_instance f = false) ∧
    ¬ (StubFrame.is_instance f = true ∧ InterpretedFrame.is_instance f = true) := by
  refine ⟨?_, ?_, ?_⟩
  · unfold StubFrame.is_instance Frame.is_stub
    cases hcb : f.cb with
    | none => simp
    | some cb => simp
  · intro _ hcb
    simp [StubFrame.is_instance, Frame.is_stub, hcb]
  · rintro ⟨hs, hi⟩
    simp [StubFrame.is_instance, InterpretedFrame.is_instance] at hs hi
    rw [hi] at hs
    exact absurd hs.1 (by decide)

theorem stub_is_instance_iff_witness :
    StubFrame.is_instance stub_frame = true ∧
    StubFrame.is_instance { stub_frame with cb := none } = false :=
  ⟨(stub_is_instance_iff stub_frame).1.mpr ⟨rfl, ⟨2, true, none⟩, rfl, rfl⟩,
    (stub_is_instance_iff { stub_frame with cb := none }).2.1 rfl rfl⟩

/-- C15 fails as stated: the mask's depth 1 and the recorded depth 3 differ, and
`expression_stack_size` returns 1 without failing its assertion. -/
theorem smaller_mask_depth_is_accepted :
    (⟨1⟩ : InterpreterOopMap).expression_stack_size ≠
      (interpreted_frame_of_depth 3).interpreter_frame_expression_stack_size ∧
    InterpretedFrame.expression_stack_size (interpreted_frame_of_depth 3) ⟨1⟩ = some 1 := by
  decide

/-- C15, amended. `InterpretedFrame::expression_stack_size(f, mask)` fails its assertion iff
the mask's expression-stack depth exceeds the depth the interpreter records for the frame, and
otherwise returns the mask's depth. -/
theorem expression_stack_size_spec (f : frame) (mask : InterpreterOopMap) :
    (InterpretedFrame.expression_stack_size f mask = none ↔
      f.interpreter_frame_expression_stack_size < mask.expression_stack_size) ∧
    InterpretedFrame.expression_stack_size f mask =
      if mask.expression_stack_size ≤ f.interpreter_frame_expression_stack_size then
        some mask.expression_stack_size
      else none := by
  unfold InterpretedFrame.expression_stack_size vm_assert
  by_cases h : mask.expression_stack_size ≤ f.interpreter_frame_expression_stack_size
  · simp [h]
  · simp only [h, decide_False, if_false, Bool.false_eq_true]
    exact ⟨⟨fun _ => lt_of_not_le h, fun _ => rfl⟩, rfl⟩

/-- C17. `Frame::is_deopt_return(pc, sender)` is false whenever the sender is an interpreted
frame, whatever its code object (a null one too); for a non-interpreted sender it is
`is_deopt_pc(pc)` of the code object of the sender viewed as a compiled method. -/
theorem is_deopt_return_spec (pc : address) (sender : frame) :
    (sender.is_interpreted_frame = true → Frame.is_deopt_return pc sender = some false) ∧
    (∀ (cb : CodeBlob) (cm : CompiledMethod), sender.is_interpreted_frame = false →
      sender.cb = some cb → cb.as_compiled_method = some cm →
      Frame.is_deopt_return pc sender = some (cm.is_deopt_pc pc)) := by
  constructor
  · intro h
    simp [Frame.is_deopt_return, h]
  · intro cb cm h hcb hcm
    simp [Frame.is_deopt_return, h, hcb, hcm]

theorem is_deopt_return_spec_witness :
    Frame.is_deopt_return 40 (interpreted_frame 100 94) = some false ∧
    Frame.is_deopt_return 40
      { interpreted_frame 100 94 with cb := some (code_blob deopt_method) } = some false ∧
    Frame.is_deopt_return 40 (compiled_frame (code_blob deopt_method)) = some true ∧
    Frame.is_deopt_return 41 (compiled_frame (code_blob deopt_method)) = some false :=
  ⟨(is_deopt_return_spec 40 (interpreted_frame 100 94)).1 rfl,
    (is_deopt_return_spec 40
      { interpreted_frame 100 94 with cb := some (code_blob deopt_method) }).1 rfl,
    (is_deopt_return_spec 40 (compiled_frame (code_blob deopt_method))).2
      (code_blob deopt_method) deopt_method rfl rfl rfl,
    (is_deopt_return_spec 41 (compiled_frame (code_blob deopt_method))).2
      (code_blob deopt_method) deopt_method rfl rfl rfl⟩

/-- C11. Classification totality and exclusivity: for a frame of a known kind exactly one of
`InterpretedFrame::is_instance`, `CompiledFrame::is_instance`, `NativeFrame::is_instance` and
`StubFrame::is_instance` reports true. -/
theorem classification_exactly_one (f : frame) (h : f.known_kind = true) :
    [InterpretedFrame.is_instance f, CompiledFrame.is_instance f, NativeFrame.is_instance f,
      StubFrame.is_instance f].count true = 1 := by
  unfold frame.known_kind frame.spec_is_compiled_frame frame.spec_is_native_frame
    CodeBlob.is_native_wrapper at h
  unfold InterpretedFrame.is_instance CompiledFrame.is_instance NativeFrame.is_instance
    StubFrame.is_instance Frame.is_stub
  cases hcb : f.cb with
  | none =>
    rw [hcb] at h
    cases hi : f.is_interpreted_frame <;> cases hc : f.is_compiled_frame <;>
      cases hn : f.is_native_frame <;> simp_all
  | some cb =>
    rw [hcb] at h
    simp only at h ⊢
    cases hm : cb.as_compiled_method with
    | none =>
      simp only [hm] at h
      cases hi : f.is_interpreted_frame <;> cases hc : f.is_compiled_frame <;>
        cases hn : f.is_native_frame <;> cases hs : cb.is_runtime_stub <;> simp_all
    | some cm =>
      simp only [hm] at h
      cases hi : f.is_interpreted_frame <;> cases hc : f.is_compiled_frame <;>
        cases hn : f.is_native_frame <;> cases hs : cb.is_runtime_stub <;>
        cases hnm : cm.is_native_method <;> simp_all

theorem classification_exactly_one_witness :
    [InterpretedFrame.is_instance (interpreted_frame 100 94),
      CompiledFrame.is_instance (interpreted_frame 100 94),
      NativeFrame.is_instance (interpreted_frame 100 94),
      StubFrame.is_instance (interpreted_frame 100 94)].count true = 1 ∧
    [InterpretedFrame.is_instance (compiled_frame (code_blob deopt_method)),
      CompiledFrame.is_instance (compiled_frame (code_blob deopt_method)),
      NativeFrame.is_instance (compiled_frame (code_blob deopt_method)),
      StubFrame.is_instance (compiled_frame (code_blob deopt_method))].count true = 1 ∧
    [InterpretedFrame.is_instance (native_frame true 7 60),
      CompiledFrame.is_instance (native_frame true 7 60),
      NativeFrame.is_instance (native_frame true 7 60),
      StubFrame.is_instance (native_frame true 7 60)].count true = 1 ∧
    [InterpretedFrame.is_instance stub_frame, CompiledFrame.is_instance stub_frame,
      NativeFrame.is_instance stub_frame, StubFrame.is_instance stub_frame].count true = 1 :=
  ⟨classification_exactly_one (interpreted_frame 100 94) (by decide),
    classification_exactly_one (compiled_frame (code_blob deopt_method)) (by decide),
    classification_exactly_one (native_frame true 7 60) (by decide),
    classification_exactly_one stub_frame (by decide)⟩

/-! ## The native scanner as a scan of the receiver -/

theorem native_scan_eq (vm : VM) (thread : JavaThread) (f : frame) (table : Table)
    (cb : CodeBlob) (cm : CompiledMethod) (hcb : f.cb = some cb)
    (hcm : cb.as_compiled_method = some cm) :
    NativeFrame.monitors_to_fix vm thread f table =
      if NativeFrame.scan_preconditions vm thread f cm = true then
        some (scan_pure vm (monitorenter_oop thread) (NativeFrame.monitor_views thread f cm)
          (0, table))
      else none := by
  unfold NativeFrame.monitors_to_fix NativeFrame.scan_preconditions NativeFrame.monitor_views
  simp only [hcb, hcm, Option.bind_eq_bind, Option.some_bind, Option.pure_def, vm_assert]
  by_cases h0 : NativeFrame.is_instance f = true
  · by_cases hs : cm.method.is_synchronized = true
    · by_cases ht : f.sp = thread.last_Java_sp
      · simp only [h0, hs, ht, if_true, Option.some_bind, Bool.not_true, Bool.false_eq_true,
          if_false, decide_True, Bool.and_false, scan_pure, Bool.true_and, Bool.false_or]
        by_cases h1 : (thread.is_on_monitorenter && monitorenter_oop thread != nullptr &&
            monitorenter_oop thread == f.get_native_receiver) = true
        · by_cases h2 : vm.current_thread_holds_lock thread f.get_native_receiver = true
          · simp [h1, h2]
          · simp [h1, h2]
        · simp [h1]
      · simp only [h0, hs, ht, if_true, Option.some_bind, Bool.not_true, Bool.false_eq_true,
          if_false, decide_False, Bool.not_false, Bool.and_true, scan_pure, Bool.true_and,
          Bool.false_or]
        by_cases h1 : vm.current_thread_holds_lock thread f.get_native_receiver = true
        · by_cases h2 : (monitorenter_oop thread == nullptr ||
              monitorenter_oop thread != f.get_native_receiver) = true
          · by_cases h3 : f.get_native_receiver = nullptr
            · simp [h1, h2, h3, oop_mark]
            · have hnf : needs_fixup vm (monitorenter_oop thread) f.get_native_receiver =
                  !((vm.mark f.get_native_receiver).has_monitor &&
                    !(vm.mark f.get_native_receiver).monitor.is_owner_anonymous) := by
                unfold needs_fixup
                have e1 : (f.get_native_receiver != nullptr) = true := by simpa using h3
                have e2 : (f.get_native_receiver != monitorenter_oop thread) = true := by
                  simp only [Bool.or_eq_true, beq_iff_eq, bne_iff_ne, ne_eq] at h2 ⊢
                  rcases h2 with h2 | h2
                  · rw [h2]; exact h3
                  · exact fun e => h2 e.symm
                rw [e1, e2]
                simp
              have h3' : (f.get_native_receiver != nullptr) = true := by simpa using h3
              simp only [h1, h2, h3, h3', oop_mark, if_true, if_false, Option.some_bind,
                Bool.true_and, hnf]
              generalize ((vm.mark f.get_native_receiver).has_monitor &&
                !(vm.mark f.get_native_receiver).monitor.is_owner_anonymous) = b
              cases b
              · simp only [Bool.false_eq_true, if_false, Bool.not_false, if_true, record]
                cases f.is_heap_frame
                · simp only [Bool.not_false, if_true, Option.some_bind]
                  cases (table.put_if_absent f.get_native_receiver true).2 <;> simp
                · simp
              · simp only [if_true, Bool.not_true, Bool.false_eq_true, if_false]
                cases (vm.mark f.get_native_receiver).monitor.is_owner thread <;> simp
          · simp [h1, h2]
        · simp [h1]
    · simp [h0, hs, scan_pure]
  · simp [h0]

/-! ## Whether a scan returns does not depend on the table -/

theorem interp_loop_size_zero (vm : VM) (thread : JavaThread) (f : frame)
    (chunk : Option stackChunk) (me : oop) (last_mon current : Int)
    (hsz : vm.interpreter_frame_monitor_size = 0) (hc : current ≥ last_mon) :
    ∀ (fuel : Nat) (st : Nat × Table),
      InterpretedFrame.monitors_to_fix_loop vm thread f chunk me last_mon fuel current st =
        none := by
  intro fuel
  induction fuel with
  | zero =>
    intro st
    obtain ⟨c, t⟩ := st
    simp [InterpretedFrame.monitors_to_fix_loop, hc]
  | succ n ih =>
    intro st
    rw [interp_loop_succ _ _ _ _ _ _ _ _ _ hc, hsz]
    simp only [Nat.cast_zero, sub_zero]
    cases InterpretedFrame.load_owner vm f chunk current with
    | none => rfl
    | some o =>
      rw [Option.some_bind]
      cases fix_owner vm thread f.is_heap_frame me st o with
      | none => rfl
      | some st1 => rw [Option.some_bind]; exact ih st1

theorem interp_scan_uniform (vm : VM) (thread : JavaThread) (f : frame)
    (chunk : Option stackChunk) :
    ∃ (ok : Bool) (vs : List (Option oop)), ∀ table : Table,
      InterpretedFrame.monitors_to_fix vm thread f table chunk =
        if ok = true then some (scan_pure vm (monitorenter_oop thread) vs (0, table))
        else none := by
  by_cases hle : f.interpreter_frame_monitor_end ≤ f.interpreter_frame_monitor_begin
  · by_cases hsz : 0 < vm.interpreter_frame_monitor_size
    · refine ⟨views_ok vm thread f.is_heap_frame (monitorenter_oop thread)
        (InterpretedFrame.monitor_views vm f chunk), InterpretedFrame.monitor_views vm f chunk, ?_⟩
      intro table
      rw [interp_scan_eq vm thread f table chunk hle hsz, scan_views_eq]
    · have hz : vm.interpreter_frame_monitor_size = 0 := by omega
      by_cases he : f.interpreter_frame_monitor_begin = f.interpreter_frame_monitor_end
      · refine ⟨true, [], ?_⟩
        intro table
        simp [InterpretedFrame.monitors_to_fix, vm_assert, hle, he, scan_pure]
      · refine ⟨false, [], ?_⟩
        intro table
        have hge : f.interpreter_frame_monitor_begin - (0 : Int) ≥
            f.interpreter_frame_monitor_end := by
          rw [sub_zero]; exact hle
        simp only [InterpretedFrame.monitors_to_fix, vm_assert, hle, decide_True, if_true,
          Option.bind_eq_bind, Option.some_bind, he, if_false,
          frame.previous_monitor_in_interpreter_frame, hz, Nat.cast_zero, Bool.false_eq_true]
        exact interp_loop_size_zero vm thread f chunk _ _ _ hz hge _ _
  · refine ⟨false, [], ?_⟩
    intro table
    simp [InterpretedFrame.monitors_to_fix, vm_assert, hle]

theorem compiled_scan_uniform (vm : VM) (thread : JavaThread) (map : RegisterMapT)
    (f : frame) :
    ∃ (ok : Bool) (vs : List (Option oop)), ∀ table : Table,
      CompiledFrame.monitors_to_fix vm thread map f table =
        if ok = true then some (scan_pure vm (monitorenter_oop thread) vs (0, table))
        else none := by
  cases hcb : f.cb with
  | none =>
    refine ⟨false, [], ?_⟩
    intro table
    simp only [CompiledFrame.monitors_to_fix, hcb, vm_assert, Bool.false_eq_true, if_false]
    cases f.is_interpreted_frame <;> cases CompiledFrame.is_instance f <;> rfl
  | some cb =>
    cases hcm : cb.as_compiled_method with
    | none =>
      refine ⟨false, [], ?_⟩
      intro table
      simp only [CompiledFrame.monitors_to_fix, hcb, hcm, vm_assert, Bool.false_eq_true,
        if_false]
      cases f.is_interpreted_frame <;> cases CompiledFrame.is_instance f <;> simp [hcm]
    | some cm =>
      by_cases hflags : (!f.is_interpreted_frame && CompiledFrame.is_instance f &&
          (!cm.is_compiled || !cm.is_native_method)) = true
      · by_cases hm : cm.has_monitors = true
        · refine ⟨views_ok vm thread f.is_heap_frame (monitorenter_oop thread)
            ((CompiledFrame.monitor_owners vm map f (cm.scope_desc_at f.pc)).map some),
            (CompiledFrame.monitor_owners vm map f (cm.scope_desc_at f.pc)).map some, ?_⟩
          intro table
          rw [compiled_scan_eq vm thread map f table cb cm hcb hcm, if_pos hflags, if_pos hm,
            scan_views_eq]
        · refine ⟨true, [], ?_⟩
          intro table
          rw [compiled_scan_eq vm thread map f table cb cm hcb hcm, if_pos hflags, if_neg hm]
          rfl
      · refine ⟨false, [], ?_⟩
        intro table
        rw [compiled_scan_eq vm thread map f table cb cm hcb hcm, if_neg hflags]
        rfl

theorem native_scan_uniform (vm : VM) (thread : JavaThread) (f : frame) :
    ∃ (ok : Bool) (vs : List (Option oop)), ∀ table : Table,
      NativeFrame.monitors_to_fix vm thread f table =
        if ok = true then some (scan_pure vm (monitorenter_oop thread) vs (0, table))
        else none := by
  cases hcb : f.cb with
  | none =>
    refine ⟨false, [], ?_⟩
    intro table
    simp only [NativeFrame.monitors_to_fix, hcb, vm_assert, Bool.false_eq_true, if_false]
    cases NativeFrame.is_instance f <;> rfl
  | some cb =>
    cases hcm : cb.as_compiled_method with
    | none =>
      refine ⟨false, [], ?_⟩
      intro table
      simp only [NativeFrame.monitors_to_fix, hcb, hcm, vm_assert, Bool.false_eq_true, if_false]
      cases NativeFrame.is_instance f <;> simp [hcm]
    | some cm =>
      exact ⟨NativeFrame.scan_preconditions vm thread f cm,
        NativeFrame.monitor_views thread f cm,
        fun table => native_scan_eq vm thread f table cb cm hcb hcm⟩

theorem scan_pure_idem (vm : VM) (me : oop) (vs : List (Option oop)) (st : Nat × Table) :
    scan_pure vm me vs (0, (scan_pure vm me vs st).2) = (0, (scan_pure vm me vs st).2) := by
  have ht : (scan_pure vm me vs (0, (scan_pure vm me vs st).2)).2 = (scan_pure vm me vs st).2 := by
    apply Finmap.ext_lookup
    intro o
    rw [scan_pure_lookup]
    by_cases ho : o ∈ (scan_pure vm me vs st).2
    · simp [ho]
    · have hno : ¬ (some o ∈ vs ∧ needs_fixup vm me o = true) := by
        intro h
        exact ho ((scan_pure_mem vm me vs st o).mpr (Or.inr h))
      simp only [ho, hno, if_false]
      exact (Finmap.lookup_eq_none.mpr ho).symm
  have hc := scan_pure_count vm me vs (0, (scan_pure vm me vs st).2)
  rw [ht] at hc
  exact Prod.ext (by simp only at hc ⊢; omega) ht

/-- What follows for a scanner whose outcome is a table-independent test followed by a scan of
a table-independent owner list: it only grows the table, it counts the growth, and a second
run on the table it left returns 0 and leaves that table. -/
theorem uniform_scan_facts (vm : VM) (me : oop) (scan : Table → Option (Nat × Table))
    (hu : ∃ (ok : Bool) (vs : List (Option oop)), ∀ table : Table,
      scan table = if ok = true then some (scan_pure vm me vs (0, table)) else none)
    (table : Table) (n : Nat) (t : Table) (h : scan table = some (n, t)) :
    (∀ o, o ∈ table → o ∈ t) ∧
    (∀ o, o ∈ table → t.lookup o = table.lookup o) ∧
    n + table.number_of_entries = t.number_of_entries ∧
    scan t = some (0, t) := by
  obtain ⟨ok, vs, hscan⟩ := hu
  have h1 := hscan table
  rw [h] at h1
  cases ok with
  | false => simp at h1
  | true =>
    simp only [if_true, Option.some.injEq] at h1
    have ht : t = (scan_pure vm me vs (0, table)).2 := by rw [← h1]
    have hn : n = (scan_pure vm me vs (0, table)).1 := by rw [← h1]
    refine ⟨?_, ?_, ?_, ?_⟩
    · intro o ho
      rw [ht, scan_pure_mem]
      exact Or.inl ho
    · intro o ho
      rw [ht, scan_pure_lookup]
      simp [ho]
    · have hc := scan_pure_count vm me vs (0, table)
      rw [ht, hn]
      simpa using hc
    · rw [hscan t, if_pos rfl, ht, scan_pure_idem]

theorem native_scan_ok (vm : VM) (thread : JavaThread) (f : frame) (table : Table)
    (cb : CodeBlob) (cm : CompiledMethod) (hcb : f.cb = some cb)
    (hcm : cb.as_compiled_method = some cm)
    (h : NativeFrame.scan_preconditions vm thread f cm = true) :
    NativeFrame.monitors_to_fix vm thread f table =
      some (scan_pure vm (monitorenter_oop thread) (NativeFrame.monitor_views thread f cm)
        (0, table)) := by
  rw [native_scan_eq vm thread f table cb cm hcb hcm, if_pos h]

/-- C16. Whatever the native scanner returns, the count is 0 or 1, the only object the table
can have gained is the receiver of the frame, and the table has gained as many objects as the
count says; the scanner does return when its assertions hold; and for a method that is not
declared synchronized it returns 0 and leaves the table unchanged, whatever the lock state of
the receiver. -/
theorem native_at_most_receiver (vm : VM) (thread : JavaThread) (f : frame) (table : Table) :
    (∀ (n : Nat) (t : Table), NativeFrame.monitors_to_fix vm thread f table = some (n, t) →
      (n = 0 ∨ n = 1) ∧
      (∀ o, o ∈ t → o ∈ table ∨ o = f.get_native_receiver) ∧
      n + table.number_of_entries = t.number_of_entries) ∧
    (∀ (cb : CodeBlob) (cm : CompiledMethod), f.cb = some cb →
      cb.as_compiled_method = some cm →
      NativeFrame.scan_preconditions vm thread f cm = true →
      ∃ n t, NativeFrame.monitors_to_fix vm thread f table = some (n, t)) ∧
    (∀ (cb : CodeBlob) (cm : CompiledMethod), NativeFrame.is_instance f = true →
      f.cb = some cb → cb.as_compiled_method = some cm →
      cm.method.is_synchronized = false →
      NativeFrame.monitors_to_fix vm thread f table = some (0, table)) := by
  refine ⟨?_, ?_, ?_⟩
  · intro n t h
    rcases native_scan_sound vm thread f table (n, t) h with h1 | ⟨hn, h1⟩
    · have hn0 : n = 0 := congrArg Prod.fst h1
      have ht : t = table := congrArg Prod.snd h1
      subst hn0 ht
      exact ⟨Or.inl rfl, fun o ho => Or.inl ho, by simp⟩
    · simp only [scan_pure, hn, if_true] at h1
      have hn1 : n = (record (0, table) f.get_native_receiver).1 := congrArg Prod.fst h1
      have ht : t = (record (0, table) f.get_native_receiver).2 := congrArg Prod.snd h1
      refine ⟨?_, ?_, ?_⟩
      · rw [hn1]
        unfold record
        cases (table.put_if_absent f.get_native_receiver true).2 <;> simp
      · intro o ho
        rw [ht, record_mem] at ho
        exact ho.symm
      · have hc := record_count (0, table) f.get_native_receiver
        rw [hn1, ht]
        simpa using hc
  · intro cb cm hcb hcm hpre
    exact ⟨_, _, native_scan_ok vm thread f table cb cm hcb hcm hpre⟩
  · intro cb cm hi hcb hcm hs
    simp [NativeFrame.monitors_to_fix, hcb, hcm, hi, hs, vm_assert]

theorem native_at_most_receiver_witness :
    ((1 = 0 ∨ 1 = 1) ∧
      (∀ o, o ∈ Finmap.insert 7 true table_8 →
        o ∈ table_8 ∨ o = (native_frame true 7 60).get_native_receiver) ∧
      1 + table_8.number_of_entries = Table.number_of_entries (Finmap.insert 7 true table_8)) ∧
    (∃ n t, NativeFrame.monitors_to_fix vm0 thread0 (native_frame true 7 60) table_8 =
      some (n, t)) ∧
    NativeFrame.monitors_to_fix vm0 thread0 (native_frame false 9 60) table_8 =
      some (0, table_8) :=
  ⟨(native_at_most_receiver vm0 thread0 (native_frame true 7 60) table_8).1 1
      (Finmap.insert 7 true table_8) (by decide),
    (native_at_most_receiver vm0 thread0 (native_frame true 7 60) table_8).2.1
      _ _ rfl rfl (by decide),
    (native_at_most_receiver vm0 thread0 (native_frame false 9 60) table_8).2.2
      _ _ rfl rfl rfl rfl⟩

/-- C19. The scanners only grow the table and count exactly the growth: whatever an
interpreted, a compiled or a native scan returns from an arbitrary initial table, every object
of the table before the scan is in the table after it, and the returned count plus the size
before is the size after. Each scanner returns when its assertions hold. -/
theorem scanners_grow_and_count (vm : VM) (thread : JavaThread) (table : Table) :
    (∀ (f : frame) (chunk : Option stackChunk) (n : Nat) (t : Table),
      InterpretedFrame.monitors_to_fix vm thread f table chunk = some (n, t) →
      (∀ o, o ∈ table → o ∈ t) ∧ n + table.number_of_entries = t.number_of_entries) ∧
    (∀ (map : RegisterMapT) (f : frame) (n : Nat) (t : Table),
      CompiledFrame.monitors_to_fix vm thread map f table = some (n, t) →
      (∀ o, o ∈ table → o ∈ t) ∧ n + table.number_of_entries = t.number_of_entries) ∧
    (∀ (f : frame) (n : Nat) (t : Table),
      NativeFrame.monitors_to_fix vm thread f table = some (n, t) →
      (∀ o, o ∈ table → o ∈ t) ∧ n + table.number_of_entries = t.number_of_entries) ∧
    (∀ (f : frame) (chunk : Option stackChunk),
      InterpretedFrame.scan_preconditions vm thread f chunk = true →
      ∃ n t, InterpretedFrame.monitors_to_fix vm thread f table chunk = some (n, t)) ∧
    (∀ (map : RegisterMapT) (f : frame) (cb : CodeBlob) (cm : CompiledMethod),
      f.cb = some cb → cb.as_compiled_method = some cm →
      CompiledFrame.scan_preconditions vm thread map f cm = true →
      ∃ n t, CompiledFrame.monitors_to_fix vm thread map f table = some (n, t)) ∧
    (∀ (f : frame) (cb : CodeBlob) (cm : CompiledMethod),
      f.cb = some cb → cb.as_compiled_method = some cm →
      NativeFrame.scan_preconditions vm thread f cm = true →
      ∃ n t, NativeFrame.monitors_to_fix vm thread f table = some (n, t)) := by
  refine ⟨?_, ?_, ?_, ?_, ?_, ?_⟩
  · intro f chunk n t h
    have hf := uniform_scan_facts vm (monitorenter_oop thread)
      (fun tb => InterpretedFrame.monitors_to_fix vm thread f tb chunk)
      (interp_scan_uniform vm thread f chunk) table n t h
    exact ⟨hf.1, hf.2.2.1⟩
  · intro map f n t h
    have hf := uniform_scan_facts vm (monitorenter_oop thread)
      (fun tb => CompiledFrame.monitors_to_fix vm thread map f tb)
      (compiled_scan_uniform vm thread map f) table n t h
    exact ⟨hf.1, hf.2.2.1⟩
  · intro f n t h
    have hf := uniform_scan_facts vm (monitorenter_oop thread)
      (fun tb => NativeFrame.monitors_to_fix vm thread f tb)
      (native_scan_uniform vm thread f) table n t h
    exact ⟨hf.1, hf.2.2.1⟩
  · intro f chunk hpre
    exact ⟨_, _, interp_scan_ok vm thread f table chunk hpre⟩
  · intro map f cb cm hcb hcm hpre
    have hs := compiled_scan_ok vm thread map f table cb cm hcb hcm hpre
    by_cases hm : cm.has_monitors = true
    · rw [if_pos hm] at hs
      exact ⟨_, _, hs⟩
    · rw [if_neg hm] at hs
      exact ⟨_, _, hs⟩
  · intro f cb cm hcb hcm hpre
    exact ⟨_, _, native_scan_ok vm thread f table cb cm hcb hcm hpre⟩

theorem scanners_grow_and_count_witness :
    InterpretedFrame.monitors_to_fix vm0 thread0 (interpreted_frame 100 94) table_7 none =
      some (1, table_7_8) ∧
    1 + table_7.number_of_entries = table_7_8.number_of_entries ∧
    (∀ o, o ∈ table_7 → o ∈ table_7_8) ∧
    (∃ n t, CompiledFrame.monitors_to_fix vm0 thread0 0
      (compiled_frame (code_blob (compiled_method true scopes_7_8_elim6))) table_7 =
      some (n, t)) ∧
    (∃ n t, NativeFrame.monitors_to_fix vm0 thread0 (native_frame true 7 60) table_7 =
      some (n, t)) ∧
    0 + table_7.number_of_entries = table_7.number_of_entries := by
  have h := scanners_grow_and_count vm0 thread0 table_7
  refine ⟨by decide, ?_, ?_, ?_, ?_, ?_⟩
  · exact (h.1 (interpreted_frame 100 94) none 1 table_7_8 (by decide)).2
  · exact (h.1 (interpreted_frame 100 94) none 1 table_7_8 (by decide)).1
  · exact h.2.2.2.2.1 0 _ _ _ rfl rfl (by decide)
  · exact h.2.2.2.2.2 (native_frame true 7 60) _ _ rfl rfl (by decide)
  · exact (h.2.2.1 (native_frame true 7 60) 0 table_7 (by decide)).2

/-- C20. Re-scanning is idempotent: when an interpreted, a compiled or a native scan of a
frame returns, a second scan of the same frame (same snapshot, same headers) from the table
the first one left returns 0 and leaves that table unchanged. -/
theorem rescan_idempotent (vm : VM) (thread : JavaThread) (table : Table) :
    (∀ (f : frame) (chunk : Option stackChunk) (n : Nat) (t : Table),
      InterpretedFrame.monitors_to_fix vm thread f table chunk = some (n, t) →
      InterpretedFrame.monitors_to_fix vm thread f t chunk = some (0, t)) ∧
    (∀ (map : RegisterMapT) (f : frame) (n : Nat) (t : Table),
      CompiledFrame.monitors_to_fix vm thread map f table = some (n, t) →
      CompiledFrame.monitors_to_fix vm thread map f t = some (0, t)) ∧
    (∀ (f : frame) (n : Nat) (t : Table),
      NativeFrame.monitors_to_fix vm thread f table = some (n, t) →
      NativeFrame.monitors_to_fix vm thread f t = some (0, t)) := by
  refine ⟨?_, ?_, ?_⟩
  · intro f chunk n t h
    exact (uniform_scan_facts vm (monitorenter_oop thread)
      (fun tb => InterpretedFrame.monitors_to_fix vm thread f tb chunk)
      (interp_scan_uniform vm thread f chunk) table n t h).2.2.2
  · intro map f n t h
    exact (uniform_scan_facts vm (monitorenter_oop thread)
      (fun tb => CompiledFrame.monitors_to_fix vm thread map f tb)
      (compiled_scan_uniform vm thread map f) table n t h).2.2.2
  · intro f n t h
    exact (uniform_scan_facts vm (monitorenter_oop thread)
      (fun tb => NativeFrame.monitors_to_fix vm thread f tb)
      (native_scan_uniform vm thread f) table n t h).2.2.2

theorem rescan_idempotent_witness :
    InterpretedFrame.monitors_to_fix vm0 thread0 (interpreted_frame 100 94) ∅ none =
      some (2, table_7_8) ∧
    InterpretedFrame.monitors_to_fix vm0 thread0 (interpreted_frame 100 94) table_7_8 none =
      some (0, table_7_8) ∧
    CompiledFrame.monitors_to_fix vm0 thread0 0
      (compiled_frame (code_blob (compiled_method true scopes_7_8_elim6))) table_7_8 =
      some (0, table_7_8) ∧
    NativeFrame.monitors_to_fix vm0 thread0 (native_frame true 7 60) table_7 =
      some (0, table_7) := by
  have h := rescan_idempotent vm0 thread0 ∅
  exact ⟨by decide, h.1 (interpreted_frame 100 94) none 2 table_7_8 (by decide),
    h.2.1 0 (compiled_frame (code_blob (compiled_method true scopes_7_8_elim6))) 2 table_7_8
      (by decide),
    h.2.2 (native_frame true 7 60) 1 table_7 (by decide)⟩

/-- C14. The compiled scanner applies the skip rules and the idempotent counting of the
interpreted scanner: when the decoded owners of the non-eliminated monitors of the scope chain
of a compiled frame and the owners of the monitor slots of an interpreted frame are the same
multiset, in any order, the two scanners return the same count and leave the same table, for
every thread snapshot and initial table. Both scans are ones that run to their end, and a
compiled method without the `has_monitors` flag has no monitor to scan. -/
theorem compiled_matches_interpreted (vm : VM) (thread : JavaThread) (table : Table)
    (fi : frame) (chunk : Option stackChunk) (map : RegisterMapT) (fc : frame) (cb : CodeBlob)
    (cm : CompiledMethod) (hcb : fc.cb = some cb) (hcm : cb.as_compiled_method = some cm)
    (hi : InterpretedFrame.scan_preconditions vm thread fi chunk = true)
    (hc : CompiledFrame.scan_preconditions vm thread map fc cm = true)
    (hflag : cm.has_monitors = false →
      CompiledFrame.monitor_owners vm map fc (cm.scope_desc_at fc.pc) = [])
    (hperm : (InterpretedFrame.monitor_views vm fi chunk).Perm
      ((CompiledFrame.monitor_owners vm map fc (cm.scope_desc_at fc.pc)).map some)) :
    ∃ n t, InterpretedFrame.monitors_to_fix vm thread fi table chunk = some (n, t) ∧
      CompiledFrame.monitors_to_fix vm thread map fc table = some (n, t) := by
  have h1 := interp_scan_ok vm thread fi table chunk hi
  have h2 := compiled_scan_ok vm thread map fc table cb cm hcb hcm hc
  have hcongr : scan_pure vm (monitorenter_oop thread) (InterpretedFrame.monitor_views vm fi chunk)
      (0, table) =
      scan_pure vm (monitorenter_oop thread)
        ((CompiledFrame.monitor_owners vm map fc (cm.scope_desc_at fc.pc)).map some)
        (0, table) :=
    scan_pure_congr vm _ _ _ _ fun o _ => hperm.mem_iff
  by_cases hm : cm.has_monitors = true
  · rw [if_pos hm] at h2
    rw [hcongr] at h1
    exact ⟨_, _, h1, h2⟩
  · rw [if_neg hm] at h2
    have hm2 : cm.has_monitors = false := by simpa using hm
    rw [hcongr, hflag hm2] at h1
    exact ⟨0, table, h1, h2⟩

theorem compiled_matches_interpreted_witness :
    ∃ n t, InterpretedFrame.monitors_to_fix vm0 thread0 (interpreted_frame 100 94) table_7 none =
        some (n, t) ∧
      CompiledFrame.monitors_to_fix vm0 thread0 0
        (compiled_frame (code_blob (compiled_method true
          [⟨some [⟨7, false⟩, ⟨6, true⟩, ⟨7, false⟩]⟩, ⟨some [⟨8, false⟩]⟩]))) table_7 =
        some (n, t) :=
  compiled_matches_interpreted vm0 thread0 table_7 (interpreted_frame 100 94) none 0
    (compiled_frame (code_blob (compiled_method true
      [⟨some [⟨7, false⟩, ⟨6, true⟩, ⟨7, false⟩]⟩, ⟨some [⟨8, false⟩]⟩])))
    _ _ rfl rfl (by decide) (by decide) (by decide) (by decide)

/-! ## The iterations of the interpreted loop -/

theorem interp_visits_eq (vm : VM) (f : frame) (last_mon : Int)
    (hsz : 0 < vm.interpreter_frame_monitor_size) :
    ∀ (fuel : Nat) (current : Int),
      (current + (vm.interpreter_frame_monitor_size : Int) - last_mon).toNat /
          vm.interpreter_frame_monitor_size ≤ fuel →
      InterpretedFrame.monitors_to_fix_visits vm f last_mon fuel current =
        some ((List.range ((current + (vm.interpreter_frame_monitor_size : Int) -
            last_mon).toNat / vm.interpreter_frame_monitor_size)).map fun (k : Nat) =>
          current - (k : Int) * (vm.interpreter_frame_monitor_size : Int)) := by
  intro fuel
  induction fuel with
  | zero =>
    intro current hle
    have h0 : (current + (vm.interpreter_frame_monitor_size : Int) - last_mon).toNat /
        vm.interpreter_frame_monitor_size = 0 := Nat.le_zero.mp hle
    have hlt := (Nat.div_eq_zero_iff hsz).mp h0
    have hc : ¬ current ≥ last_mon := by omega
    simp [InterpretedFrame.monitors_to_fix_visits, hc, h0]
  | succ n ih =>
    intro current hle
    by_cases hc : current ≥ last_mon
    · have hd : vm.interpreter_frame_monitor_size ≤
          (current + (vm.interpreter_frame_monitor_size : Int) - last_mon).toNat := by omega
      have hdiv : (current + (vm.interpreter_frame_monitor_size : Int) - last_mon).toNat /
          vm.interpreter_frame_monitor_size =
          (current - (vm.interpreter_frame_monitor_size : Int) +
            (vm.interpreter_frame_monitor_size : Int) - last_mon).toNat /
            vm.interpreter_frame_monitor_size + 1 := by
        rw [Nat.div_eq_sub_div hsz hd]
        congr 2
        omega
      rw [hdiv] at hle ⊢
      simp only [InterpretedFrame.monitors_to_fix_visits, hc, if_true,
        frame.previous_monitor_in_interpreter_frame]
      rw [ih (current - (vm.interpreter_frame_monitor_size : Int)) (by omega),
        List.range_succ_eq_map, List.map_cons, List.map_map]
      simp only [Option.map_some', Nat.cast_zero, zero_mul, sub_zero, Option.some.injEq,
        List.cons.injEq, true_and]
      apply List.map_congr_left
      intro k _
      simp only [Function.comp, Nat.cast_succ]
      ring
    · have hlt : (current + (vm.interpreter_frame_monitor_size : Int) - last_mon).toNat <
          vm.interpreter_frame_monitor_size := by omega
      simp [InterpretedFrame.monitors_to_fix_visits, hc, Nat.div_eq_of_lt hlt]

theorem mem_monitor_slots_iff (vm : VM) (f : frame)
    (hle : f.interpreter_frame_monitor_end ≤ f.interpreter_frame_monitor_begin)
    (hsz : 0 < vm.interpreter_frame_monitor_size) (s : Int) :
    s ∈ InterpretedFrame.monitor_slots vm f ↔
      ∃ k : Nat, s = f.interpreter_frame_monitor_begin -
          ((k : Int) + 1) * (vm.interpreter_frame_monitor_size : Int) ∧
        f.interpreter_frame_monitor_end ≤ s := by
  unfold InterpretedFrame.monitor_slots InterpretedFrame.monitor_count
  simp only [List.mem_map, List.mem_range]
  have key : ∀ k : Nat,
      k < (f.interpreter_frame_monitor_begin - f.interpreter_frame_monitor_end).toNat /
        vm.interpreter_frame_monitor_size ↔
      f.interpreter_frame_monitor_end ≤ f.interpreter_frame_monitor_begin -
        ((k : Int) + 1) * (vm.interpreter_frame_monitor_size : Int) := by
    intro k
    rw [← Nat.succ_le_iff, Nat.le_div_iff_mul_le hsz]
    have hd : ((f.interpreter_frame_monitor_begin - f.interpreter_frame_monitor_end).toNat : Int) =
        f.interpreter_frame_monitor_begin - f.interpreter_frame_monitor_end :=
      Int.toNat_of_nonneg (sub_nonneg.mpr hle)
    constructor
    · intro h
      have h2 : (((k.succ * vm.interpreter_frame_monitor_size : Nat)) : Int) ≤
          ((f.interpreter_frame_monitor_begin - f.interpreter_frame_monitor_end).toNat : Int) :=
        Int.ofNat_le.mpr h
      rw [hd] at h2
      push_cast at h2
      linarith
    · intro h
      apply Int.ofNat_le.mp
      rw [hd]
      push_cast
      linarith
  constructor
  · rintro ⟨k, hk, rfl⟩
    exact ⟨k, rfl, (key k).mp hk⟩
  · rintro ⟨k, rfl, hk⟩
    exact ⟨k, (key k).mpr hk, rfl⟩

/-- C18. The interpreted scan is a single bounded pass. For an interpreted frame with
`monitor_end ≤ monitor_begin` and a positive monitor-slot size the loop ends within its fuel;
its iterations visit the monitor slots of the frame, the slot-aligned addresses of
`[monitor_end, monitor_begin)`, each one once, so there are as many iterations as the frame has
monitors; the scan is the pass of the loop body over these slots; and when
`monitor_begin = monitor_end` it returns 0 with the table unchanged, which is also what the
loop returns without the early return. -/
theorem interpreted_scan_single_pass (vm : VM) (thread : JavaThread) (f : frame)
    (table : Table) (chunk : Option stackChunk)
    (hle : f.interpreter_frame_monitor_end ≤ f.interpreter_frame_monitor_begin)
    (hsz : 0 < vm.interpreter_frame_monitor_size) :
    InterpretedFrame.monitors_to_fix_visits vm f f.interpreter_frame_monitor_end
        (f.interpreter_frame_monitor_begin - f.interpreter_frame_monitor_end).toNat
        (f.previous_monitor_in_interpreter_frame vm f.interpreter_frame_monitor_begin) =
      some (InterpretedFrame.monitor_slots vm f) ∧
    (InterpretedFrame.monitor_slots vm f).length = InterpretedFrame.monitor_count vm f ∧
    (InterpretedFrame.monitor_slots vm f).Nodup ∧
    (∀ s, s ∈ InterpretedFrame.monitor_slots vm f ↔
      ∃ k : Nat, s = f.interpreter_frame_monitor_begin -
          ((k : Int) + 1) * (vm.interpreter_frame_monitor_size : Int) ∧
        f.interpreter_frame_monitor_end ≤ s) ∧
    (∀ s ∈ InterpretedFrame.monitor_slots vm f,
      f.interpreter_frame_monitor_end ≤ s ∧ s < f.interpreter_frame_monitor_begin) ∧
    InterpretedFrame.monitors_to_fix vm thread f table chunk =
      scan_views vm thread f.is_heap_frame (monitorenter_oop thread)
        ((InterpretedFrame.monitor_slots vm f).map (InterpretedFrame.load_owner vm f chunk))
        (0, table) ∧
    (f.interpreter_frame_monitor_begin = f.interpreter_frame_monitor_end →
      InterpretedFrame.monitor_count vm f = 0 ∧
      InterpretedFrame.monitors_to_fix vm thread f table chunk = some (0, table) ∧
      InterpretedFrame.monitors_to_fix_loop vm thread f chunk (monitorenter_oop thread)
          f.interpreter_frame_monitor_end
          (f.interpreter_frame_monitor_begin - f.interpreter_frame_monitor_end).toNat
          (f.previous_monitor_in_interpreter_frame vm f.interpreter_frame_monitor_begin)
          (0, table) = some (0, table)) := by
  have hmem := mem_monitor_slots_iff vm f hle hsz
  have hpos : (0 : Int) < (vm.interpreter_frame_monitor_size : Int) := by exact_mod_cast hsz
  refine ⟨?_, ?_, ?_, hmem, ?_, ?_, ?_⟩
  · have e : f.interpreter_frame_monitor_begin - (vm.interpreter_frame_monitor_size : Int) +
        (vm.interpreter_frame_monitor_size : Int) - f.interpreter_frame_monitor_end =
        f.interpreter_frame_monitor_begin - f.interpreter_frame_monitor_end := by ring
    unfold frame.previous_monitor_in_interpreter_frame
    rw [interp_visits_eq vm f _ hsz _ _ (by rw [e]; exact Nat.div_le_self _ _), e]
    simp only [InterpretedFrame.monitor_slots, InterpretedFrame.monitor_count,
      Option.some.injEq]
    apply List.map_congr_left
    intro k _
    ring
  · simp [InterpretedFrame.monitor_slots]
  · unfold InterpretedFrame.monitor_slots
    apply List.Nodup.map _ (List.nodup_range _)
    intro a b hab
    simp only at hab
    have h1 : ((a : Int) + 1) * (vm.interpreter_frame_monitor_size : Int) =
        ((b : Int) + 1) * (vm.interpreter_frame_monitor_size : Int) := by linarith
    have h2 := mul_right_cancel₀ (ne_of_gt hpos) h1
    have h3 : (a : Int) = (b : Int) := by linarith
    exact_mod_cast h3
  · intro s hs
    obtain ⟨k, rfl, hk⟩ := (hmem s).mp hs
    refine ⟨hk, ?_⟩
    have hk0 : (0 : Int) ≤ (k : Int) := Int.ofNat_nonneg k
    have : (0 : Int) < ((k : Int) + 1) * (vm.interpreter_frame_monitor_size : Int) :=
      mul_pos (by linarith) hpos
    linarith
  · exact interp_scan_eq vm thread f table chunk hle hsz
  · intro he
    have hcount : InterpretedFrame.monitor_count vm f = 0 := by
      simp [InterpretedFrame.monitor_count, he]
    refine ⟨hcount, ?_, ?_⟩
    · simp [InterpretedFrame.monitors_to_fix, vm_assert, he]
    · have hstop : ¬ (f.previous_monitor_in_interpreter_frame vm
          f.interpreter_frame_monitor_begin ≥ f.interpreter_frame_monitor_end) := by
        unfold frame.previous_monitor_in_interpreter_frame
        rw [he]
        intro hge
        linarith
      exact interp_loop_stop vm thread f chunk _ _ _ _ _ hstop

theorem interpreted_scan_single_pass_witness :
    InterpretedFrame.monitors_to_fix_visits vm0 (interpreted_frame 100 94) 94 6 98 =
      some [98, 96, 94] ∧
    InterpretedFrame.monitor_count vm0 (interpreted_frame 100 94) = 3 ∧
    (InterpretedFrame.monitor_count vm0 (interpreted_frame 100 100) = 0 ∧
      InterpretedFrame.monitors_to_fix vm0 thread0 (interpreted_frame 100 100) table_7 none =
        some (0, table_7) ∧
      InterpretedFrame.monitors_to_fix_loop vm0 thread0 (interpreted_frame 100 100) none
        (monitorenter_oop thread0) 100 0 98 (0, table_7) = some (0, table_7)) :=
  ⟨(interpreted_scan_single_pass vm0 thread0 (interpreted_frame 100 94) ∅ none (by decide)
      (by decide)).1,
    by decide,
    (interpreted_scan_single_pass vm0 thread0 (interpreted_frame 100 100) table_7 none
      (by decide) (by decide)).2.2.2.2.2.2 rfl⟩

end ContinuationHelper

end Loom
